import Mathlib

set_option maxRecDepth 40000

/-!
Shallow embedding of `image_processing.py`: the four BMP resize transforms
(`resize_96x96_to_32x32`, `resize_96x96_to_32x32_and_threshold`,
`resize_96x96_to_32x32_averaged_and_threshold`, `resize_96x96_to_32x32_quantized`),
Sobel edge detection (`sobel_edge_detection`) and the BMP header stripper
(`strip_bmp_header`), together with proofs of the specification claims.

Python `bytearray` buffers are modelled as `List Nat`; `array` buffers of the
Sobel routine as `List Int`.  Fallible operations (indexing out of range,
storing a value outside `range(0, 256)` into a bytearray cell, integer
division by zero) return `Except PyErr`.
-/

namespace ImageProcessing

/-- The Python runtime errors that the modelled code paths can raise. -/
inductive PyErr where
  | indexError
  | valueError (msg : String)
  | zeroDivisionError
  deriving DecidableEq, Repr

instance {ε α : Type} [DecidableEq ε] [DecidableEq α] : DecidableEq (Except ε α) :=
  fun a b =>
    match a, b with
    | .ok x, .ok y =>
      if h : x = y then isTrue (by rw [h]) else isFalse (by intro hh; cases hh; exact h rfl)
    | .error x, .error y =>
      if h : x = y then isTrue (by rw [h]) else isFalse (by intro hh; cases hh; exact h rfl)
    | .ok _, .error _ => isFalse (by intro hh; cases hh)
    | .error _, .ok _ => isFalse (by intro hh; cases hh)

/-- Reading `l[i]` from a Python sequence: `IndexError` when `i` is out of range. -/
def pyGet {α : Type} (l : List α) (i : Nat) : Except PyErr α :=
  match l[i]? with
  | some v => .ok v
  | none => .error .indexError

/-- Storing `buf[i] = v` into a Python `bytearray`: `IndexError` when `i` is out of
range, `ValueError` when the value does not fit in a byte. -/
def pySet (buf : List Nat) (i v : Nat) : Except PyErr (List Nat) :=
  if i < buf.length then
    if v < 256 then .ok (buf.set i v)
    else .error (.valueError "byte must be in range(0, 256)")
  else .error .indexError

/-- Storing `buf[i] = v` into a Python `array` cell (no byte-range check). -/
def pySetArr {α : Type} (buf : List α) (i : Nat) (v : α) : Except PyErr (List α) :=
  if i < buf.length then .ok (buf.set i v)
  else .error .indexError

/-- Python slice read `l[a:b]` (for `0 ≤ a ≤ b`). -/
def pySlice {α : Type} (l : List α) (a b : Nat) : List α :=
  (l.drop a).take (b - a)

/-- Python slice assignment `l[a:b] = src` (for `0 ≤ a ≤ b`): splices `src` in place
of the designated range, possibly changing the length of the buffer. -/
def spliceAssign {α : Type} (l : List α) (a b : Nat) (src : List α) : List α :=
  l.take a ++ src ++ l.drop b

/-- `n.to_bytes(4, 'little')` for `n < 2^32`. -/
def le4 (n : Nat) : List Nat :=
  [n % 256, n / 256 % 256, n / 65536 % 256, n / 16777216 % 256]

/-- The header/palette construction shared verbatim by the four resize transforms
(lines 49-76 of `image_processing.py`): allocate the 2102-byte output
(`14 + 40 + 1024` of headers and palette plus `(32 + 32 % 4) * 32 = 1024` of
pixel data), copy the 1024 palette bytes from offset `14 + 40 = 54` of the
input, then fill the BMP and DIB header fields. -/
def buildNewBmp (bmp_data : List Nat) : List Nat :=
  spliceAssign
    (spliceAssign
      (spliceAssign
        (spliceAssign
          (spliceAssign
            (spliceAssign
              (spliceAssign
                (spliceAssign
                  (spliceAssign
                    (spliceAssign
                      (List.replicate (14 + 40 + 256 * 4 + (32 + 32 % 4) * 32) 0)
                      54 (54 + 256 * 4) (pySlice bmp_data 54 (54 + 256 * 4)))
                    0 2 [66, 77])
                  2 6 (le4 (14 + 40 + 256 * 4 + (32 + 32 % 4) * 32)))
                10 14 (le4 (14 + 40 + 256 * 4)))
              14 18 (le4 40))
            18 22 (le4 32))
          22 26 (le4 32))
        26 28 [1, 0])
      28 30 [8, 0])
    34 38 (le4 ((32 + 32 % 4) * 32))

/-- Row-major destination coordinates `(new_y, new_x)` of the
`for new_y in range(32): for new_x in range(32)` loops. -/
def coords : List (Nat × Nat) :=
  (List.range 32).flatMap fun y => (List.range 32).map fun x => (y, x)

/-- Source offset of the nearest-sampled pixel for destination `(y, x)`:
`old_x = new_x * 96 // 32`, `old_y = 96 - 1 - new_y * 96 // 32` (bottom-up row
mirroring), at `1078 + old_y * row_stride + old_x` with `row_stride = 96 + 96 % 4`. -/
def srcOffset (y x : Nat) : Nat :=
  14 + 40 + 256 * 4 + (96 - 1 - y * 96 / 32) * (96 + 96 % 4) + x * 96 / 32

/-- Thresholding of a pixel value, as in the bodies of the threshold transforms:
255 when `pixel_value >= threshold` else 0, swapped when `inversion` is set. -/
def binarize (threshold : Int) (inversion : Bool) (pixel_value : Nat) : Nat :=
  if inversion then (if (pixel_value : Int) ≥ threshold then 0 else 255)
  else (if (pixel_value : Int) ≥ threshold then 255 else 0)

/-- Loop body engine of the resize transforms: for each destination coordinate in
order, compute the pixel value and store it at the running output offset.
`NEW_ROW_PADDING = 32 % 4 = 0`, so the running offset advances by exactly one
per pixel across row boundaries. -/
def writePixels (pix : Nat → Nat → Except PyErr Nat) :
    List (Nat × Nat) → Nat → List Nat → Except PyErr (List Nat)
  | [], _, buf => .ok buf
  | (y, x) :: rest, off, buf =>
    match pix y x with
    | .error e => .error e
    | .ok v =>
      match pySet buf off v with
      | .error e => .error e
      | .ok buf' => writePixels pix rest (off + 1) buf'

/-- Pixel computation of `resize_96x96_to_32x32`: the nearest-sampled source byte,
masked with `& 0xFF` (reduction mod 256). -/
def pixN (input : List Nat) (y x : Nat) : Except PyErr Nat :=
  match pyGet input (srcOffset y x) with
  | .error e => .error e
  | .ok b => .ok (b % 256)

/-- Pixel computation of `resize_96x96_to_32x32_and_threshold`: nearest-sampled
source byte, thresholded only when `threshold >= 0`. -/
def pixT (input : List Nat) (threshold : Int) (inversion : Bool) (y x : Nat) :
    Except PyErr Nat :=
  match pyGet input (srcOffset y x) with
  | .error e => .error e
  | .ok b =>
    if 0 ≤ threshold then .ok (binarize threshold inversion (b % 256))
    else .ok (b % 256)

/-- The bucket-midpoint map of `resize_96x96_to_32x32_quantized`:
`quantized_level = pixel_value // range_size` then
`quantized_level * range_size + range_size // 2`. -/
def quantize_value (range_size pixel_value : Nat) : Nat :=
  pixel_value / range_size * range_size + range_size / 2

/-- Pixel computation of `resize_96x96_to_32x32_quantized`.  Python raises
`ZeroDivisionError` on `pixel_value // range_size` when `range_size = 0`
(which happens for `depth > 256`); the read precedes the division. -/
def pixQ (input : List Nat) (range_size : Nat) (y x : Nat) : Except PyErr Nat :=
  match pyGet input (srcOffset y x) with
  | .error e => .error e
  | .ok b =>
    if range_size = 0 then .error .zeroDivisionError
    else .ok (quantize_value range_size (b % 256))

/-- The 3x3 block of source coordinates averaged for one destination pixel:
rows `old_y_start .. old_y_start + 2`, columns `old_x_start .. old_x_start + 2`,
iterated row-major as in the source's nested `range(start, end)` loops. -/
def blockCells (old_y_start old_x_start : Nat) : List (Nat × Nat) :=
  (List.range' old_y_start 3).flatMap fun oy =>
    (List.range' old_x_start 3).map fun ox => (oy, ox)

/-- The `pixel_sum` / `pixel_count` accumulation loop of
`resize_96x96_to_32x32_averaged_and_threshold`, reading each block cell at
`1078 + old_y * row_stride + old_x` with `row_stride = 96 + 96 % 4 = 96`. -/
def blockSumCount (input : List Nat) :
    List (Nat × Nat) → Nat × Nat → Except PyErr (Nat × Nat)
  | [], sc => .ok sc
  | c :: rest, sc =>
    match pyGet input (14 + 40 + 256 * 4 + c.1 * (96 + 96 % 4) + c.2) with
    | .error e => .error e
    | .ok p => blockSumCount input rest (sc.1 + p, sc.2 + 1)

/-- Pixel computation of `resize_96x96_to_32x32_averaged_and_threshold`:
`scale_factor = 96 // 32`, block start `((32 - 1 - new_y) * scale_factor,
new_x * scale_factor)`, integer average `pixel_sum // pixel_count`, then
unconditional thresholding. -/
def pixA (input : List Nat) (threshold : Int) (inversion : Bool) (y x : Nat) :
    Except PyErr Nat :=
  match blockSumCount input (blockCells ((32 - 1 - y) * (96 / 32)) (x * (96 / 32))) (0, 0) with
  | .error e => .error e
  | .ok sc => .ok (binarize threshold inversion (sc.1 / sc.2))

/-- `resize_96x96_to_32x32_and_threshold(bmp_data_mv, threshold, inversion)`. -/
def resize_96x96_to_32x32_and_threshold (bmp_data_mv : List Nat) (threshold : Int)
    (inversion : Bool) : Except PyErr (List Nat) :=
  writePixels (pixT bmp_data_mv threshold inversion) coords (14 + 40 + 256 * 4)
    (buildNewBmp bmp_data_mv)

/-- `resize_96x96_to_32x32_quantized(bmp_data_mv, depth)`: `depth` below 2 is
replaced by 256, `range_size = 256 // depth` (nonnegative integer division). -/
def resize_96x96_to_32x32_quantized (bmp_data_mv : List Nat) (depth : Int) :
    Except PyErr (List Nat) :=
  let d := if depth < 2 then 256 else depth
  let range_size := ((256 : Int) / d).toNat
  writePixels (pixQ bmp_data_mv range_size) coords (14 + 40 + 256 * 4)
    (buildNewBmp bmp_data_mv)

/-- `resize_96x96_to_32x32_averaged_and_threshold(bmp_data_mv, threshold, inversion)`. -/
def resize_96x96_to_32x32_averaged_and_threshold (bmp_data_mv : List Nat)
    (threshold : Int) (inversion : Bool) : Except PyErr (List Nat) :=
  writePixels (pixA bmp_data_mv threshold inversion) coords (14 + 40 + 256 * 4)
    (buildNewBmp bmp_data_mv)

/-- `resize_96x96_to_32x32(bmp_data_mv)` (its `print` call is I/O only and is
not modelled). -/
def resize_96x96_to_32x32 (bmp_data_mv : List Nat) : Except PyErr (List Nat) :=
  writePixels (pixN bmp_data_mv) coords (14 + 40 + 256 * 4)
    (buildNewBmp bmp_data_mv)

/-- Message of the `ValueError` raised by `strip_bmp_header` on a too-short buffer
(the spec's `MalformedInput`). -/
def malformedInputMsg : String :=
  "Invalid BMP file: insufficient data for header, palette, and pixel data."

/-- Message of the `ValueError` raised by `strip_bmp_header` on a wrong-size pixel
payload (the spec's `InvalidDimensions`). -/
def invalidDimensionsMsg : String :=
  "Invalid BMP file: pixel data size is not 32x32."

/-- `strip_bmp_header(bmp_byte_array)`: validate `length > 54 + 1024`, slice off the
header and palette, validate the payload is exactly `32 * 32` bytes. -/
def strip_bmp_header (bmp_byte_array : List Nat) : Except PyErr (List Nat) :=
  if bmp_byte_array.length ≤ 54 + 256 * 4 then .error (.valueError malformedInputMsg)
  else
    let pixel_data := bmp_byte_array.drop (54 + 256 * 4)
    if pixel_data.length ≠ 32 * 32 then .error (.valueError invalidDimensionsMsg)
    else .ok pixel_data

/-- Flattened Sobel kernel `Gx`. -/
def Gx : List Int := [-1, 0, 1, -2, 0, 2, -1, 0, 1]

/-- Flattened Sobel kernel `Gy`. -/
def Gy : List Int := [-1, -2, -1, 0, 0, 0, 1, 2, 1]

/-- Kernel offsets `(ky + 1, kx + 1)` for `ky, kx in range(-1, 2)`, iterated in
source order. -/
def kernelCells : List (Nat × Nat) :=
  (List.range 3).flatMap fun ky => (List.range 3).map fun kx => (ky, kx)

/-- The `sum_x` / `sum_y` kernel accumulation of `sobel_edge_detection`: pixel at
`offset + (y + ky) * 32 + (x + kx)` times `Gx`/`Gy` at `(ky + 1) * 3 + (kx + 1)`.
Cells carry `ky + 1`/`kx + 1` (so indices read `y + c.1 - 1`); the loop is only
entered with `y, x ≥ 1` so the natural subtraction is exact. -/
def sobelKernelFold (input : List Int) (offset x y : Nat) :
    List (Nat × Nat) → Int × Int → Except PyErr (Int × Int)
  | [], s => .ok s
  | c :: rest, s =>
    match pyGet input (offset + (y + c.1 - 1) * 32 + (x + c.2 - 1)) with
    | .error e => .error e
    | .ok p =>
      sobelKernelFold input offset x y rest
        (s.1 + p * (Gx.getD (c.1 * 3 + c.2) 0), s.2 + p * (Gy.getD (c.1 * 3 + c.2) 0))

/-- `sum_x` and `sum_y` for one interior pixel. -/
def sobelSums (input : List Int) (offset x y : Nat) : Except PyErr (Int × Int) :=
  sobelKernelFold input offset x y kernelCells (0, 0)

/-- Interior coordinates `(y, x)` for `y in range(1, 31): x in range(1, 31)`. -/
def interiorCoords : List (Nat × Nat) :=
  (List.range' 1 30).flatMap fun y => (List.range' 1 30).map fun x => (y, x)

/-- The interior pass of `sobel_edge_detection`.  The source computes
`magnitude = math.sqrt(sum_x**2 + sum_y**2)`, zeroes it when `< 255` (a no-op
for the final comparison) and stores `0 if magnitude < 255 else 255`; on these
integer operands IEEE-754 `sqrt` is exactly rounded and `255.0` is exactly
representable, so `magnitude < 255` coincides with the integer test
`sum_x**2 + sum_y**2 < 255**2 = 65025` used here. -/
def sobelInterior (input : List Int) (offset : Nat) :
    List (Nat × Nat) → List Int → Except PyErr (List Int)
  | [], out => .ok out
  | (y, x) :: rest, out =>
    match sobelSums input offset x y with
    | .error e => .error e
    | .ok s =>
      match pySetArr out (y * 32 + x)
          (if s.1 ^ 2 + s.2 ^ 2 < 65025 then (0 : Int) else 255) with
      | .error e => .error e
      | .ok out' => sobelInterior input offset rest out'

/-- The unconditional border-zeroing pass of `sobel_edge_detection`. -/
def sobelBorder : List (Nat × Nat) → List Int → Except PyErr (List Int)
  | [], out => .ok out
  | (y, x) :: rest, out =>
    if x = 0 ∨ y = 0 ∨ x = 32 - 1 ∨ y = 32 - 1 then
      match pySetArr out (y * 32 + x) (0 : Int) with
      | .error e => .error e
      | .ok out' => sobelBorder rest out'
    else sobelBorder rest out

/-- `sobel_edge_detection(input_image, output_image, offset)`: interior Sobel pass
followed by the border-zeroing pass over all 32x32 positions. -/
def sobel_edge_detection (input_image output_image : List Int) (offset : Nat) :
    Except PyErr (List Int) :=
  match sobelInterior input_image offset interiorCoords output_image with
  | .error e => .error e
  | .ok o1 => sobelBorder coords o1

/-- The 54 header bytes produced by `buildNewBmp`: `BM`, file size 2102 LE,
reserved, data offset 1078 LE, DIB size 40, width 32, height 32, planes 1,
bits-per-pixel 8, compression 0, image size 1024 LE, and zeroed tail fields. -/
def bmpHeader54 : List Nat :=
  [66, 77,
   54, 8, 0, 0,
   0, 0, 0, 0,
   54, 4, 0, 0,
   40, 0, 0, 0,
   32, 0, 0, 0,
   32, 0, 0, 0,
   1, 0,
   8, 0,
   0, 0, 0, 0,
   0, 4, 0, 0] ++ List.replicate 16 0

/-- The block average that `resize_96x96_to_32x32_averaged_and_threshold` binarizes:
floor of the integer average of the 3x3 source block with row start
`(32 - 1 - y) * 3` and column start `x * 3`. -/
def blockAverage (input : List Nat) (y x : Nat) : Nat :=
  ((blockCells ((32 - 1 - y) * (96 / 32)) (x * (96 / 32))).map fun c =>
    (input[14 + 40 + 256 * 4 + c.1 * (96 + 96 % 4) + c.2]?).getD 0).sum / 9

/-- The `sum_x` Sobel response at interior pixel `(x, y)`. -/
def gxVal (input : List Int) (offset x y : Nat) : Int :=
  (kernelCells.map fun c =>
    (input[offset + (y + c.1 - 1) * 32 + (x + c.2 - 1)]?).getD 0 *
      (Gx.getD (c.1 * 3 + c.2) 0)).sum

/-- The `sum_y` Sobel response at interior pixel `(x, y)`. -/
def gyVal (input : List Int) (offset x y : Nat) : Int :=
  (kernelCells.map fun c =>
    (input[offset + (y + c.1 - 1) * 32 + (x + c.2 - 1)]?).getD 0 *
      (Gy.getD (c.1 * 3 + c.2) 0)).sum

/-- The header/palette invariants the spec asserts for every transform output
buffer: total length `14 + 40 + 1024 + 1024 = 2102`, signature `BM`,
little-endian file-size field equal to the buffer length, pixel-data offset
1078, DIB size 40, width 32, height 32, planes 1, bits-per-pixel 8, image-size
field 1024, and the 1024 palette bytes at offset 54 copied verbatim from the
input buffer. -/
def validOutputHeader (input out : List Nat) : Prop :=
  out.length = 14 + 40 + 1024 + 1024 ∧
  pySlice out 0 2 = [66, 77] ∧
  pySlice out 2 6 = le4 2102 ∧
  pySlice out 10 14 = le4 1078 ∧
  pySlice out 14 18 = le4 40 ∧
  pySlice out 18 22 = le4 32 ∧
  pySlice out 22 26 = le4 32 ∧
  pySlice out 26 28 = [1, 0] ∧
  pySlice out 28 30 = [8, 0] ∧
  pySlice out 34 38 = le4 1024 ∧
  (∀ i, i < 1024 → out[54 + i]? = input[54 + i]?)

/-! ### Basic facts about the Python primitives -/

theorem pyGet_ok {α : Type} {l : List α} {i : Nat} {v : α} :
    pyGet l i = .ok v ↔ l[i]? = some v := by
  unfold pyGet
  rcases h : l[i]? with _ | w <;> simp [h]

theorem pyGet_err {α : Type} {l : List α} {i : Nat} (h : l.length ≤ i) :
    pyGet l i = .error .indexError := by
  unfold pyGet
  rw [List.getElem?_eq_none h]

theorem pyGet_lt_of_ok {α : Type} {l : List α} {i : Nat} {v : α}
    (h : pyGet l i = .ok v) : i < l.length := by
  obtain ⟨hlt, -⟩ := List.getElem?_eq_some.mp (pyGet_ok.mp h)
  exact hlt

theorem pySet_inv {buf : List Nat} {i v : Nat} {out : List Nat}
    (h : pySet buf i v = .ok out) :
    i < buf.length ∧ v < 256 ∧ out = buf.set i v := by
  unfold pySet at h
  split at h
  · split at h
    · injection h with h'
      exact ⟨by assumption, by assumption, h'.symm⟩
    · cases h
  · cases h

theorem pySet_ok {buf : List Nat} {i v : Nat} (hi : i < buf.length) (hv : v < 256) :
    pySet buf i v = .ok (buf.set i v) := by
  unfold pySet
  rw [if_pos hi, if_pos hv]

theorem pySetArr_inv {α : Type} {buf : List α} {i : Nat} {v : α} {out : List α}
    (h : pySetArr buf i v = .ok out) :
    i < buf.length ∧ out = buf.set i v := by
  unfold pySetArr at h
  split at h
  · injection h with h'
    exact ⟨by assumption, h'.symm⟩
  · cases h

theorem pySetArr_ok {α : Type} {buf : List α} {i : Nat} {v : α} (hi : i < buf.length) :
    pySetArr buf i v = .ok (buf.set i v) := by
  unfold pySetArr
  rw [if_pos hi]

/-! ### The header/palette construction -/

theorem spliceAssign_append {α : Type} (A B src : List α) (a b : Nat)
    (ha : a ≤ A.length) (hb : b ≤ A.length) :
    spliceAssign (A ++ B) a b src = A.take a ++ (src ++ (A.drop b ++ B)) := by
  unfold spliceAssign
  rw [List.take_append_eq_append_take, List.drop_append_eq_append_drop,
    Nat.sub_eq_zero_of_le ha, Nat.sub_eq_zero_of_le hb]
  simp [List.append_assoc]

/-- `buildNewBmp` always yields the 54 fixed header bytes, then the palette slice
of the input, then 1024 zeroed pixel cells (all header writes land inside the
first 54 bytes, so the palette slice passes through untouched whatever its
length). -/
theorem buildNewBmp_eq (input : List Nat) :
    buildNewBmp input
      = bmpHeader54 ++ (pySlice input 54 1078 ++ List.replicate 1024 0) := by
  have h1 : spliceAssign (List.replicate 2102 0) 54 1078 (pySlice input 54 1078)
      = List.replicate 54 0 ++ (pySlice input 54 1078 ++ List.replicate 1024 0) := by
    unfold spliceAssign
    rw [List.take_replicate, List.drop_replicate]
    norm_num
  have h2 : spliceAssign
        (List.replicate 54 0 ++ (pySlice input 54 1078 ++ List.replicate 1024 0))
        0 2 [66, 77]
      = ([66, 77] ++ List.replicate 52 0)
          ++ (pySlice input 54 1078 ++ List.replicate 1024 0) := by
    rw [spliceAssign_append (List.replicate 54 0) _ [66, 77] 0 2
      (by norm_num) (by norm_num)]
    rfl
  have h3 : spliceAssign
        (([66, 77] ++ List.replicate 52 0)
          ++ (pySlice input 54 1078 ++ List.replicate 1024 0))
        2 6 (le4 2102)
      = ([66, 77, 54, 8, 0, 0] ++ List.replicate 48 0)
          ++ (pySlice input 54 1078 ++ List.replicate 1024 0) := by
    rw [spliceAssign_append ([66, 77] ++ List.replicate 52 0) _ (le4 2102) 2 6
      (by norm_num) (by norm_num)]
    rfl
  have h4 : spliceAssign
        (([66, 77, 54, 8, 0, 0] ++ List.replicate 48 0)
          ++ (pySlice input 54 1078 ++ List.replicate 1024 0))
        10 14 (le4 1078)
      = ([66, 77, 54, 8, 0, 0, 0, 0, 0, 0, 54, 4, 0, 0] ++ List.replicate 40 0)
          ++ (pySlice input 54 1078 ++ List.replicate 1024 0) := by
    rw [spliceAssign_append ([66, 77, 54, 8, 0, 0] ++ List.replicate 48 0) _
      (le4 1078) 10 14 (by norm_num) (by norm_num)]
    rfl
  have h5 : spliceAssign
        (([66, 77, 54, 8, 0, 0, 0, 0, 0, 0, 54, 4, 0, 0] ++ List.replicate 40 0)
          ++ (pySlice input 54 1078 ++ List.replicate 1024 0))
        14 18 (le4 40)
      = ([66, 77, 54, 8, 0, 0, 0, 0, 0, 0, 54, 4, 0, 0, 40, 0, 0, 0]
            ++ List.replicate 36 0)
          ++ (pySlice input 54 1078 ++ List.replicate 1024 0) := by
    rw [spliceAssign_append
      ([66, 77, 54, 8, 0, 0, 0, 0, 0, 0, 54, 4, 0, 0] ++ List.replicate 40 0) _
      (le4 40) 14 18 (by norm_num) (by norm_num)]
    rfl
  have h6 : spliceAssign
        (([66, 77, 54, 8, 0, 0, 0, 0, 0, 0, 54, 4, 0, 0, 40, 0, 0, 0]
            ++ List.replicate 36 0)
          ++ (pySlice input 54 1078 ++ List.replicate 1024 0))
        18 22 (le4 32)
      = ([66, 77, 54, 8, 0, 0, 0, 0, 0, 0, 54, 4, 0, 0, 40, 0, 0, 0,
            32, 0, 0, 0] ++ List.replicate 32 0)
          ++ (pySlice input 54 1078 ++ List.replicate 1024 0) := by
    rw [spliceAssign_append
      ([66, 77, 54, 8, 0, 0, 0, 0, 0, 0, 54, 4, 0, 0, 40, 0, 0, 0]
        ++ List.replicate 36 0) _
      (le4 32) 18 22 (by norm_num) (by norm_num)]
    rfl
  have h7 : spliceAssign
        (([66, 77, 54, 8, 0, 0, 0, 0, 0, 0, 54, 4, 0, 0, 40, 0, 0, 0,
            32, 0, 0, 0] ++ List.replicate 32 0)
          ++ (pySlice input 54 1078 ++ List.replicate 1024 0))
        22 26 (le4 32)
      = ([66, 77, 54, 8, 0, 0, 0, 0, 0, 0, 54, 4, 0, 0, 40, 0, 0, 0,
            32, 0, 0, 0, 32, 0, 0, 0] ++ List.replicate 28 0)
          ++ (pySlice input 54 1078 ++ List.replicate 1024 0) := by
    rw [spliceAssign_append
      ([66, 77, 54, 8, 0, 0, 0, 0, 0, 0, 54, 4, 0, 0, 40, 0, 0, 0,
        32, 0, 0, 0] ++ List.replicate 32 0) _
      (le4 32) 22 26 (by norm_num) (by norm_num)]
    rfl
  have h8 : spliceAssign
        (([66, 77, 54, 8, 0, 0, 0, 0, 0, 0, 54, 4, 0, 0, 40, 0, 0, 0,
            32, 0, 0, 0, 32, 0, 0, 0] ++ List.replicate 28 0)
          ++ (pySlice input 54 1078 ++ List.replicate 1024 0))
        26 28 [1, 0]
      = ([66, 77, 54, 8, 0, 0, 0, 0, 0, 0, 54, 4, 0, 0, 40, 0, 0, 0,
            32, 0, 0, 0, 32, 0, 0, 0, 1, 0] ++ List.replicate 26 0)
          ++ (pySlice input 54 1078 ++ List.replicate 1024 0) := by
    rw [spliceAssign_append
      ([66, 77, 54, 8, 0, 0, 0, 0, 0, 0, 54, 4, 0, 0, 40, 0, 0, 0,
        32, 0, 0, 0, 32, 0, 0, 0] ++ List.replicate 28 0) _
      [1, 0] 26 28 (by norm_num) (by norm_num)]
    rfl
  have h9 : spliceAssign
        (([66, 77, 54, 8, 0, 0, 0, 0, 0, 0, 54, 4, 0, 0, 40, 0, 0, 0,
            32, 0, 0, 0, 32, 0, 0, 0, 1, 0] ++ List.replicate 26 0)
          ++ (pySlice input 54 1078 ++ List.replicate 1024 0))
        28 30 [8, 0]
      = ([66, 77, 54, 8, 0, 0, 0, 0, 0, 0, 54, 4, 0, 0, 40, 0, 0, 0,
            32, 0, 0, 0, 32, 0, 0, 0, 1, 0, 8, 0] ++ List.replicate 24 0)
          ++ (pySlice input 54 1078 ++ List.replicate 1024 0) := by
    rw [spliceAssign_append
      ([66, 77, 54, 8, 0, 0, 0, 0, 0, 0, 54, 4, 0, 0, 40, 0, 0, 0,
        32, 0, 0, 0, 32, 0, 0, 0, 1, 0] ++ List.replicate 26 0) _
      [8, 0] 28 30 (by norm_num) (by norm_num)]
    rfl
  have h10 : spliceAssign
        (([66, 77, 54, 8, 0, 0, 0, 0, 0, 0, 54, 4, 0, 0, 40, 0, 0, 0,
            32, 0, 0, 0, 32, 0, 0, 0, 1, 0, 8, 0] ++ List.replicate 24 0)
          ++ (pySlice input 54 1078 ++ List.replicate 1024 0))
        34 38 (le4 1024)
      = bmpHeader54 ++ (pySlice input 54 1078 ++ List.replicate 1024 0) := by
    rw [spliceAssign_append
      ([66, 77, 54, 8, 0, 0, 0, 0, 0, 0, 54, 4, 0, 0, 40, 0, 0, 0,
        32, 0, 0, 0, 32, 0, 0, 0, 1, 0, 8, 0] ++ List.replicate 24 0) _
      (le4 1024) 34 38 (by norm_num) (by norm_num)]
    rfl
  show spliceAssign (spliceAssign (spliceAssign (spliceAssign (spliceAssign
      (spliceAssign (spliceAssign (spliceAssign (spliceAssign (spliceAssign
      (List.replicate 2102 0) 54 1078 (pySlice input 54 1078)) 0 2 [66, 77])
      2 6 (le4 2102)) 10 14 (le4 1078)) 14 18 (le4 40)) 18 22 (le4 32))
      22 26 (le4 32)) 26 28 [1, 0]) 28 30 [8, 0]) 34 38 (le4 1024) = _
  rw [h1, h2, h3, h4, h5, h6, h7, h8, h9, h10]

theorem bmpHeader54_length : bmpHeader54.length = 54 := by decide

theorem pySlice_palette_length {input : List Nat} (h : 1078 ≤ input.length) :
    (pySlice input 54 1078).length = 1024 := by
  simp [pySlice, List.length_take, List.length_drop]
  omega

theorem buildNewBmp_length {input : List Nat} (h : 1078 ≤ input.length) :
    (buildNewBmp input).length = 2102 := by
  rw [buildNewBmp_eq]
  simp [List.length_append, bmpHeader54_length, pySlice_palette_length h]

/-! ### The destination-coordinate list -/

theorem coords_eq_map : coords = (List.range 1024).map fun i => (i / 32, i % 32) := by
  decide

theorem coords_length : coords.length = 1024 := by decide

theorem coords_head : coords = (0, 0) :: coords.tail := by decide

theorem coords_get {y x : Nat} (hy : y < 32) (hx : x < 32) :
    coords[32 * y + x]? = some (y, x) := by
  rw [coords_eq_map, List.getElem?_map, List.getElem?_range (by omega)]
  simp only [Option.map_some']
  have h1 : (32 * y + x) / 32 = y := by omega
  have h2 : (32 * y + x) % 32 = x := by omega
  rw [h1, h2]

theorem mem_coords {p : Nat × Nat} : p ∈ coords ↔ p.1 < 32 ∧ p.2 < 32 := by
  obtain ⟨y, x⟩ := p
  simp [coords, List.mem_flatMap, List.mem_map, List.mem_range]

/-! ### The pixel-write loop engine -/

theorem wp_length {pix : Nat → Nat → Except PyErr Nat} (cs : List (Nat × Nat)) :
    ∀ (off : Nat) (buf out : List Nat),
      writePixels pix cs off buf = .ok out → out.length = buf.length := by
  induction cs with
  | nil =>
    intro off buf out h
    injection h with h'
    rw [h']
  | cons c rest ih =>
    obtain ⟨y, x⟩ := c
    intro off buf out h
    simp only [writePixels] at h
    split at h
    · cases h
    · rename_i v hp
      split at h
      · cases h
      · rename_i buf' hs
        obtain ⟨-, -, hset⟩ := pySet_inv hs
        rw [ih (off + 1) buf' out h, hset, List.length_set]

theorem wp_frame_lt {pix : Nat → Nat → Except PyErr Nat} (cs : List (Nat × Nat)) :
    ∀ (off : Nat) (buf out : List Nat) (q : Nat),
      writePixels pix cs off buf = .ok out → q < off → out[q]? = buf[q]? := by
  induction cs with
  | nil =>
    intro off buf out q h hq
    injection h with h'
    rw [h']
  | cons c rest ih =>
    obtain ⟨y, x⟩ := c
    intro off buf out q h hq
    simp only [writePixels] at h
    split at h
    · cases h
    · rename_i v hp
      split at h
      · cases h
      · rename_i buf' hs
        obtain ⟨-, -, hset⟩ := pySet_inv hs
        rw [ih (off + 1) buf' out q h (by omega), hset,
          List.getElem?_set_ne (by omega)]

theorem wp_get {pix : Nat → Nat → Except PyErr Nat} (cs : List (Nat × Nat)) :
    ∀ (off : Nat) (buf out : List Nat),
      writePixels pix cs off buf = .ok out →
      ∀ (i y x : Nat), cs[i]? = some (y, x) →
        ∃ v, pix y x = .ok v ∧ out[off + i]? = some v := by
  induction cs with
  | nil =>
    intro off buf out h i y x hi
    rw [List.getElem?_nil] at hi
    cases hi
  | cons c rest ih =>
    obtain ⟨y0, x0⟩ := c
    intro off buf out h i y x hi
    simp only [writePixels] at h
    split at h
    · cases h
    · rename_i v hp
      split at h
      · cases h
      · rename_i buf' hs
        obtain ⟨hlt, -, hset⟩ := pySet_inv hs
        cases i with
        | zero =>
          rw [List.getElem?_cons_zero] at hi
          injection hi with hi'
          obtain ⟨rfl, rfl⟩ : y0 = y ∧ x0 = x := Prod.mk.inj hi'
          refine ⟨v, hp, ?_⟩
          rw [Nat.add_zero, wp_frame_lt rest (off + 1) buf' out off h (by omega),
            hset, List.getElem?_set_self hlt]
        | succ j =>
          rw [List.getElem?_cons_succ] at hi
          have hrec := ih (off + 1) buf' out h j y x hi
          have harith : off + (j + 1) = off + 1 + j := by omega
          rw [harith]
          exact hrec

theorem wp_reads {pix : Nat → Nat → Except PyErr Nat} (cs : List (Nat × Nat)) :
    ∀ (off : Nat) (buf out : List Nat),
      writePixels pix cs off buf = .ok out →
      ∀ y x, (y, x) ∈ cs → ∃ v, pix y x = .ok v := by
  induction cs with
  | nil =>
    intro off buf out h y x hm
    cases hm
  | cons c rest ih =>
    obtain ⟨y0, x0⟩ := c
    intro off buf out h y x hm
    simp only [writePixels] at h
    split at h
    · cases h
    · rename_i v hp
      split at h
      · cases h
      · rename_i buf' hs
        rcases List.mem_cons.mp hm with heq | hmem
        · obtain ⟨rfl, rfl⟩ : y = y0 ∧ x = x0 := Prod.mk.inj heq
          exact ⟨v, hp⟩
        · exact ih (off + 1) buf' out h y x hmem

theorem wp_success {pix : Nat → Nat → Except PyErr Nat} (cs : List (Nat × Nat)) :
    ∀ (off : Nat) (buf : List Nat),
      (∀ y x, (y, x) ∈ cs → ∃ v, pix y x = .ok v ∧ v < 256) →
      off + cs.length ≤ buf.length →
      ∃ out, writePixels pix cs off buf = .ok out := by
  induction cs with
  | nil =>
    intro off buf hpix hlen
    exact ⟨buf, rfl⟩
  | cons c rest ih =>
    obtain ⟨y0, x0⟩ := c
    intro off buf hpix hlen
    obtain ⟨v, hv, hv256⟩ := hpix y0 x0 (List.mem_cons_self _ _)
    rw [List.length_cons] at hlen
    have hoff : off < buf.length := by omega
    have hset := pySet_ok hoff hv256
    have hrest : off + 1 + rest.length ≤ (buf.set off v).length := by
      rw [List.length_set]; omega
    obtain ⟨out, hout⟩ := ih (off + 1) (buf.set off v)
      (fun y x hm => hpix y x (List.mem_cons_of_mem _ hm)) hrest
    refine ⟨out, ?_⟩
    simp only [writePixels, hv, hset]
    exact hout

/-! ### Source offsets and pixel computations -/

theorem srcOffset_eq (y x : Nat) :
    srcOffset y x = 1078 + (95 - 3 * y) * 96 + 3 * x := by
  unfold srcOffset
  omega

theorem srcOffset_lt {y x : Nat} (hy : y < 32) (hx : x < 32) :
    srcOffset y x < 10292 := by
  unfold srcOffset
  omega

theorem binarize_lt (t : Int) (inv : Bool) (p : Nat) : binarize t inv p < 256 := by
  unfold binarize
  split <;> split <;> norm_num

theorem binarize_cases (t : Int) (inv : Bool) (p : Nat) :
    binarize t inv p = 0 ∨ binarize t inv p = 255 := by
  unfold binarize
  split <;> split <;> simp

theorem pixN_inv {input : List Nat} {y x v : Nat} (h : pixN input y x = .ok v) :
    ∃ b, input[srcOffset y x]? = some b ∧ v = b % 256 := by
  unfold pixN at h
  split at h
  · cases h
  · rename_i b hb
    injection h with h'
    exact ⟨b, pyGet_ok.mp hb, h'.symm⟩

theorem pixN_ok {input : List Nat} {y x : Nat} (hy : y < 32) (hx : x < 32)
    (hlen : 10292 ≤ input.length) : ∃ v, pixN input y x = .ok v ∧ v < 256 := by
  have hlt : srcOffset y x < input.length :=
    lt_of_lt_of_le (srcOffset_lt hy hx) hlen
  have hget : pyGet input (srcOffset y x) = .ok (input.get ⟨srcOffset y x, hlt⟩) :=
    pyGet_ok.mpr (List.getElem?_eq_getElem hlt)
  refine ⟨input.get ⟨srcOffset y x, hlt⟩ % 256, ?_, Nat.mod_lt _ (by norm_num)⟩
  unfold pixN
  rw [hget]

theorem pixT_inv {input : List Nat} {t : Int} {inv : Bool} {y x v : Nat}
    (h : pixT input t inv y x = .ok v) :
    ∃ b, input[srcOffset y x]? = some b ∧
      v = if 0 ≤ t then binarize t inv (b % 256) else b % 256 := by
  unfold pixT at h
  split at h
  · cases h
  · rename_i b hb
    refine ⟨b, pyGet_ok.mp hb, ?_⟩
    split at h <;> rename_i hT <;> injection h with h'
    · rw [if_pos hT]
      exact h'.symm
    · rw [if_neg hT]
      exact h'.symm

theorem pixT_ok {input : List Nat} {t : Int} {inv : Bool} {y x : Nat}
    (hy : y < 32) (hx : x < 32) (hlen : 10292 ≤ input.length) :
    ∃ v, pixT input t inv y x = .ok v ∧ v < 256 := by
  have hlt : srcOffset y x < input.length :=
    lt_of_lt_of_le (srcOffset_lt hy hx) hlen
  have hget : pyGet input (srcOffset y x) = .ok (input.get ⟨srcOffset y x, hlt⟩) :=
    pyGet_ok.mpr (List.getElem?_eq_getElem hlt)
  by_cases hT : 0 ≤ t
  · refine ⟨binarize t inv (input.get ⟨srcOffset y x, hlt⟩ % 256), ?_, binarize_lt _ _ _⟩
    simp only [pixT, hget, if_pos hT]
  · refine ⟨input.get ⟨srcOffset y x, hlt⟩ % 256, ?_, Nat.mod_lt _ (by norm_num)⟩
    simp only [pixT, hget, if_neg hT]

theorem pixQ_inv {input : List Nat} {rs : Nat} {y x v : Nat}
    (h : pixQ input rs y x = .ok v) :
    ∃ b, input[srcOffset y x]? = some b ∧ rs ≠ 0 ∧ v = quantize_value rs (b % 256) := by
  unfold pixQ at h
  split at h
  · cases h
  · rename_i b hb
    split at h
    · cases h
    · rename_i hrs
      injection h with h'
      exact ⟨b, pyGet_ok.mp hb, hrs, h'.symm⟩

theorem pixQ_ok {input : List Nat} {rs : Nat} {y x : Nat}
    (hy : y < 32) (hx : x < 32) (hlen : 10292 ≤ input.length) (hrs : rs ≠ 0)
    (hq : ∀ p, p < 256 → quantize_value rs p < 256) :
    ∃ v, pixQ input rs y x = .ok v ∧ v < 256 := by
  have hlt : srcOffset y x < input.length :=
    lt_of_lt_of_le (srcOffset_lt hy hx) hlen
  have hget : pyGet input (srcOffset y x) = .ok (input.get ⟨srcOffset y x, hlt⟩) :=
    pyGet_ok.mpr (List.getElem?_eq_getElem hlt)
  refine ⟨quantize_value rs (input.get ⟨srcOffset y x, hlt⟩ % 256), ?_,
    hq _ (Nat.mod_lt _ (by norm_num))⟩
  simp only [pixQ, hget, if_neg hrs]

/-! ### The 3x3 averaging block -/

theorem blockCells_eq (a b : Nat) :
    blockCells a b = [(a, b), (a, b + 1), (a, b + 1 + 1),
      (a + 1, b), (a + 1, b + 1), (a + 1, b + 1 + 1),
      (a + 1 + 1, b), (a + 1 + 1, b + 1), (a + 1 + 1, b + 1 + 1)] := rfl

theorem blockSumCount_inv {input : List Nat} (cells : List (Nat × Nat)) :
    ∀ (sc sc' : Nat × Nat), blockSumCount input cells sc = .ok sc' →
      sc' = (sc.1 + (cells.map fun c =>
          (input[14 + 40 + 256 * 4 + c.1 * (96 + 96 % 4) + c.2]?).getD 0).sum,
        sc.2 + cells.length) := by
  induction cells with
  | nil =>
    intro sc sc' h
    injection h with h'
    simp [h'.symm]
  | cons c rest ih =>
    intro sc sc' h
    simp only [blockSumCount] at h
    split at h
    · cases h
    · rename_i p hp
      have hrec := ih _ _ h
      have hpd : (input[14 + 40 + 256 * 4 + c.1 * (96 + 96 % 4) + c.2]?).getD 0 = p := by
        rw [pyGet_ok.mp hp]
        rfl
      rw [hrec]
      simp only [List.map_cons, List.sum_cons, List.length_cons, hpd, Prod.mk.injEq]
      constructor <;> omega

theorem blockSumCount_success {input : List Nat} (cells : List (Nat × Nat))
    (hb : ∀ c ∈ cells, 14 + 40 + 256 * 4 + c.1 * (96 + 96 % 4) + c.2 < input.length) :
    ∀ sc, ∃ sc', blockSumCount input cells sc = .ok sc' := by
  induction cells with
  | nil => exact fun sc => ⟨sc, rfl⟩
  | cons c rest ih =>
    intro sc
    have hlt := hb c (List.mem_cons_self _ _)
    have hget : pyGet input (14 + 40 + 256 * 4 + c.1 * (96 + 96 % 4) + c.2)
        = .ok (input.get ⟨14 + 40 + 256 * 4 + c.1 * (96 + 96 % 4) + c.2, hlt⟩) :=
      pyGet_ok.mpr (List.getElem?_eq_getElem hlt)
    obtain ⟨sc', hsc'⟩ := ih (fun d hd => hb d (List.mem_cons_of_mem _ hd)) _
    refine ⟨sc', ?_⟩
    simp only [blockSumCount, hget]
    exact hsc'

theorem blockSumCount_read {input : List Nat} {c0 : Nat × Nat}
    {cells : List (Nat × Nat)} {sc sc' : Nat × Nat}
    (h : blockSumCount input (c0 :: cells) sc = .ok sc') :
    14 + 40 + 256 * 4 + c0.1 * (96 + 96 % 4) + c0.2 < input.length := by
  simp only [blockSumCount] at h
  split at h
  · cases h
  · rename_i p hp
    exact pyGet_lt_of_ok hp

theorem pixA_inv {input : List Nat} {t : Int} {inv : Bool} {y x v : Nat}
    (h : pixA input t inv y x = .ok v) :
    v = binarize t inv (blockAverage input y x) := by
  unfold pixA at h
  split at h
  · cases h
  · rename_i sc hsc
    injection h with h'
    have hc := blockSumCount_inv _ _ _ hsc
    have hl : (blockCells ((32 - 1 - y) * (96 / 32)) (x * (96 / 32))).length = 9 := rfl
    rw [hl] at hc
    unfold blockAverage
    rw [← h', hc]
    norm_num

theorem pixA_ok {input : List Nat} {t : Int} {inv : Bool} {y x : Nat}
    (hy : y < 32) (hx : x < 32) (hlen : 10294 ≤ input.length) :
    ∃ v, pixA input t inv y x = .ok v ∧ v < 256 := by
  have hb : ∀ c ∈ blockCells ((32 - 1 - y) * (96 / 32)) (x * (96 / 32)),
      14 + 40 + 256 * 4 + c.1 * (96 + 96 % 4) + c.2 < input.length := by
    intro c hc
    rw [blockCells_eq] at hc
    simp only [List.mem_cons, List.not_mem_nil, or_false] at hc
    rcases hc with rfl | rfl | rfl | rfl | rfl | rfl | rfl | rfl | rfl <;>
      dsimp only <;> omega
  obtain ⟨sc', hsc'⟩ := blockSumCount_success _ hb (0, 0)
  refine ⟨binarize t inv (sc'.1 / sc'.2), ?_, binarize_lt _ _ _⟩
  unfold pixA
  rw [hsc']

/-! ### Header properties and success of the resize transforms -/

theorem pySlice_eq_of_getElem {out : List Nat}
    (hbyte : ∀ q, q < 54 → out[q]? = bmpHeader54[q]?) (a b : Nat)
    (hab : a ≤ b) (hb : b ≤ 54) :
    pySlice out a b = pySlice bmpHeader54 a b := by
  apply List.ext_getElem?
  intro n
  unfold pySlice
  rw [List.getElem?_take, List.getElem?_take]
  split
  · rename_i hn
    rw [List.getElem?_drop, List.getElem?_drop]
    exact hbyte (a + n) (by omega)
  · rfl

theorem wp_header_props {pix : Nat → Nat → Except PyErr Nat} {input out : List Nat}
    (h : writePixels pix coords (14 + 40 + 256 * 4) (buildNewBmp input) = .ok out)
    (hlen : 1078 ≤ input.length) :
    validOutputHeader input out := by
  have hbuf : (buildNewBmp input).length = 2102 := buildNewBmp_length hlen
  have hout : out.length = 2102 := by
    rw [wp_length coords _ _ _ h, hbuf]
  have hframe : ∀ q, q < 1078 → out[q]? = (buildNewBmp input)[q]? := by
    intro q hq
    exact wp_frame_lt coords _ _ _ q h (by omega)
  have hbyte : ∀ q, q < 54 → out[q]? = bmpHeader54[q]? := by
    intro q hq
    rw [hframe q (by omega), buildNewBmp_eq,
      List.getElem?_append_left (by rw [bmpHeader54_length]; omega)]
  refine ⟨by omega, ?_, ?_, ?_, ?_, ?_, ?_, ?_, ?_, ?_, ?_⟩
  · rw [pySlice_eq_of_getElem hbyte 0 2 (by norm_num) (by norm_num)]
    decide
  · rw [pySlice_eq_of_getElem hbyte 2 6 (by norm_num) (by norm_num)]
    decide
  · rw [pySlice_eq_of_getElem hbyte 10 14 (by norm_num) (by norm_num)]
    decide
  · rw [pySlice_eq_of_getElem hbyte 14 18 (by norm_num) (by norm_num)]
    decide
  · rw [pySlice_eq_of_getElem hbyte 18 22 (by norm_num) (by norm_num)]
    decide
  · rw [pySlice_eq_of_getElem hbyte 22 26 (by norm_num) (by norm_num)]
    decide
  · rw [pySlice_eq_of_getElem hbyte 26 28 (by norm_num) (by norm_num)]
    decide
  · rw [pySlice_eq_of_getElem hbyte 28 30 (by norm_num) (by norm_num)]
    decide
  · rw [pySlice_eq_of_getElem hbyte 34 38 (by norm_num) (by norm_num)]
    decide
  · intro i hi
    rw [hframe (54 + i) (by omega), buildNewBmp_eq,
      List.getElem?_append_right (by rw [bmpHeader54_length]; omega),
      bmpHeader54_length]
    have hidx : 54 + i - 54 = i := by omega
    rw [hidx,
      List.getElem?_append_left (by rw [pySlice_palette_length hlen]; omega)]
    unfold pySlice
    rw [List.getElem?_take, if_pos (by omega), List.getElem?_drop]

theorem thresh_ok_len {input : List Nat} {t : Int} {inv : Bool} {out : List Nat}
    (h : resize_96x96_to_32x32_and_threshold input t inv = .ok out) :
    10199 ≤ input.length := by
  unfold resize_96x96_to_32x32_and_threshold at h
  obtain ⟨v, hv⟩ := wp_reads coords _ _ _ h 0 0
    (mem_coords.mpr ⟨by norm_num, by norm_num⟩)
  obtain ⟨b, hb, -⟩ := pixT_inv hv
  obtain ⟨hlt, -⟩ := List.getElem?_eq_some.mp hb
  have h00 : srcOffset 0 0 = 10198 := by unfold srcOffset; norm_num
  omega

theorem resize_ok_len {input : List Nat} {out : List Nat}
    (h : resize_96x96_to_32x32 input = .ok out) : 10199 ≤ input.length := by
  unfold resize_96x96_to_32x32 at h
  obtain ⟨v, hv⟩ := wp_reads coords _ _ _ h 0 0
    (mem_coords.mpr ⟨by norm_num, by norm_num⟩)
  obtain ⟨b, hb, -⟩ := pixN_inv hv
  obtain ⟨hlt, -⟩ := List.getElem?_eq_some.mp hb
  have h00 : srcOffset 0 0 = 10198 := by unfold srcOffset; norm_num
  omega

theorem quant_ok_len {input : List Nat} {depth : Int} {out : List Nat}
    (h : resize_96x96_to_32x32_quantized input depth = .ok out) :
    10199 ≤ input.length := by
  simp only [resize_96x96_to_32x32_quantized] at h
  obtain ⟨v, hv⟩ := wp_reads coords _ _ _ h 0 0
    (mem_coords.mpr ⟨by norm_num, by norm_num⟩)
  obtain ⟨b, hb, -, -⟩ := pixQ_inv hv
  obtain ⟨hlt, -⟩ := List.getElem?_eq_some.mp hb
  have h00 : srcOffset 0 0 = 10198 := by unfold srcOffset; norm_num
  omega

theorem avg_ok_len {input : List Nat} {t : Int} {inv : Bool} {out : List Nat}
    (h : resize_96x96_to_32x32_averaged_and_threshold input t inv = .ok out) :
    10007 ≤ input.length := by
  unfold resize_96x96_to_32x32_averaged_and_threshold at h
  obtain ⟨v, hv⟩ := wp_reads coords _ _ _ h 0 0
    (mem_coords.mpr ⟨by norm_num, by norm_num⟩)
  unfold pixA at hv
  split at hv
  · cases hv
  · rename_i sc hsc
    rw [blockCells_eq] at hsc
    have hread := blockSumCount_read hsc
    dsimp only at hread
    omega

theorem thresh_success (input : List Nat) (t : Int) (inv : Bool)
    (hlen : 10292 ≤ input.length) :
    ∃ out, resize_96x96_to_32x32_and_threshold input t inv = .ok out := by
  unfold resize_96x96_to_32x32_and_threshold
  apply wp_success
  · intro y x hm
    obtain ⟨hy, hx⟩ := mem_coords.mp hm
    exact pixT_ok hy hx hlen
  · rw [coords_length, buildNewBmp_length (by omega)]

theorem resize_success (input : List Nat) (hlen : 10292 ≤ input.length) :
    ∃ out, resize_96x96_to_32x32 input = .ok out := by
  unfold resize_96x96_to_32x32
  apply wp_success
  · intro y x hm
    obtain ⟨hy, hx⟩ := mem_coords.mp hm
    exact pixN_ok hy hx hlen
  · rw [coords_length, buildNewBmp_length (by omega)]

theorem avg_success (input : List Nat) (t : Int) (inv : Bool)
    (hlen : 10294 ≤ input.length) :
    ∃ out, resize_96x96_to_32x32_averaged_and_threshold input t inv = .ok out := by
  unfold resize_96x96_to_32x32_averaged_and_threshold
  apply wp_success
  · intro y x hm
    obtain ⟨hy, hx⟩ := mem_coords.mp hm
    exact pixA_ok hy hx hlen
  · rw [coords_length, buildNewBmp_length (by omega)]

theorem quant_rs_depth2 :
    (((256 : Int)) / (if (2 : Int) < 2 then 256 else 2)).toNat = 128 := by
  decide

theorem quant_success_depth2 (input : List Nat) (hlen : 10292 ≤ input.length) :
    ∃ out, resize_96x96_to_32x32_quantized input 2 = .ok out := by
  simp only [resize_96x96_to_32x32_quantized]
  rw [quant_rs_depth2]
  apply wp_success
  · intro y x hm
    obtain ⟨hy, hx⟩ := mem_coords.mp hm
    exact pixQ_ok hy hx hlen (by norm_num) (by decide)
  · rw [coords_length, buildNewBmp_length (by omega)]

/-! ### Claim C1 -/

/-- Claim C1: every buffer returned by any of the four resize transforms has
exactly `14 + 40 + 1024 + 1024 = 2102` bytes, signature `BM`, little-endian
file-size field equal to the buffer length, pixel-data offset 1078, DIB size
40, width 32, height 32, planes 1, bits-per-pixel 8, image-size field 1024,
and its 1024 palette bytes at offset 54 copied verbatim from the input. -/
theorem C1_resize_outputs_header (input : List Nat) :
    (∀ (t : Int) (inv : Bool) (out : List Nat),
        resize_96x96_to_32x32_and_threshold input t inv = .ok out →
        validOutputHeader input out) ∧
    (∀ (t : Int) (inv : Bool) (out : List Nat),
        resize_96x96_to_32x32_averaged_and_threshold input t inv = .ok out →
        validOutputHeader input out) ∧
    (∀ (depth : Int) (out : List Nat),
        resize_96x96_to_32x32_quantized input depth = .ok out →
        validOutputHeader input out) ∧
    (∀ out : List Nat,
        resize_96x96_to_32x32 input = .ok out → validOutputHeader input out) := by
  refine ⟨?_, ?_, ?_, ?_⟩
  · intro t inv out h
    have hlen := thresh_ok_len h
    unfold resize_96x96_to_32x32_and_threshold at h
    exact wp_header_props h (by omega)
  · intro t inv out h
    have hlen := avg_ok_len h
    unfold resize_96x96_to_32x32_averaged_and_threshold at h
    exact wp_header_props h (by omega)
  · intro depth out h
    have hlen := quant_ok_len h
    simp only [resize_96x96_to_32x32_quantized] at h
    exact wp_header_props h (by omega)
  · intro out h
    have hlen := resize_ok_len h
    unfold resize_96x96_to_32x32 at h
    exact wp_header_props h (by omega)

/-- Witness for C1 at a concrete input: the threshold transform succeeds on a
zero-filled 10292-byte buffer and its output satisfies all header invariants. -/
theorem C1_resize_outputs_header_witness :
    ∃ out, resize_96x96_to_32x32_and_threshold (List.replicate 10292 0) 128 false
        = .ok out ∧ validOutputHeader (List.replicate 10292 0) out := by
  obtain ⟨out, hout⟩ := thresh_success (List.replicate 10292 0) 128 false (le_of_eq (List.length_replicate _ _).symm)
  exact ⟨out, hout,
    (C1_resize_outputs_header (List.replicate 10292 0)).1 128 false out hout⟩

/-! ### Claim C2 -/

/-- Claim C2: `resize_96x96_to_32x32` writes, at output position
`1078 + 32 * y + x`, exactly the source byte at input position
`1078 + 96 * (95 - 3 * y) + 3 * x` (nearest sampling with bottom-up row
mirroring), unmodified. -/
theorem C2_nearest_copy_mapping (input out : List Nat)
    (h : resize_96x96_to_32x32 input = .ok out)
    (hbytes : ∀ b ∈ input, b < 256)
    (x y : Nat) (hx : x < 32) (hy : y < 32) :
    out[1078 + 32 * y + x]? = input[1078 + 96 * (95 - 3 * y) + 3 * x]? := by
  unfold resize_96x96_to_32x32 at h
  obtain ⟨v, hv, hvout⟩ := wp_get coords _ _ _ h (32 * y + x) y x (coords_get hy hx)
  obtain ⟨b, hb, hveq⟩ := pixN_inv hv
  have hsrc : srcOffset y x = 1078 + 96 * (95 - 3 * y) + 3 * x := by
    rw [srcOffset_eq]
    omega
  rw [hsrc] at hb
  have hIdx : 14 + 40 + 256 * 4 + (32 * y + x) = 1078 + 32 * y + x := by omega
  rw [hIdx] at hvout
  have hblt : b < 256 := hbytes b (List.getElem?_mem hb)
  rw [hvout, hb, hveq, Nat.mod_eq_of_lt hblt]

/-- Witness for C2 at a concrete input and the destination corner `(0, 0)`. -/
theorem C2_nearest_copy_mapping_witness :
    ∃ out, resize_96x96_to_32x32 (List.replicate 10292 0) = .ok out ∧
      out[1078 + 32 * 0 + 0]?
        = (List.replicate 10292 0)[1078 + 96 * (95 - 3 * 0) + 3 * 0]? := by
  obtain ⟨out, hout⟩ := resize_success (List.replicate 10292 0) (le_of_eq (List.length_replicate _ _).symm)
  exact ⟨out, hout, C2_nearest_copy_mapping _ _ hout
    (fun b hb => by rw [List.eq_of_mem_replicate hb]; norm_num)
    0 0 (by norm_num) (by norm_num)⟩

/-! ### Claim C7 -/

/-- Claim C7: for `resize_96x96_to_32x32_and_threshold`, a negative threshold
passes every nearest-sampled source pixel through unmodified, while
`0 ≤ threshold ≤ 255` binarizes it (255 when `pixel ≥ threshold` else 0,
swapped under inversion), so every thresholded output pixel is 0 or 255. -/
theorem C7_nearest_threshold (input : List Nat) (t : Int) (inv : Bool)
    (out : List Nat) (h : resize_96x96_to_32x32_and_threshold input t inv = .ok out)
    (x y : Nat) (hx : x < 32) (hy : y < 32) :
    (t < 0 → (∀ b ∈ input, b < 256) →
      out[1078 + 32 * y + x]? = input[1078 + 96 * (95 - 3 * y) + 3 * x]?) ∧
    (0 ≤ t → t ≤ 255 →
      out[1078 + 32 * y + x]?
        = some (binarize t inv
            ((input[1078 + 96 * (95 - 3 * y) + 3 * x]?).getD 0 % 256)) ∧
      (out[1078 + 32 * y + x]? = some 0 ∨ out[1078 + 32 * y + x]? = some 255)) := by
  unfold resize_96x96_to_32x32_and_threshold at h
  obtain ⟨v, hv, hvout⟩ := wp_get coords _ _ _ h (32 * y + x) y x (coords_get hy hx)
  obtain ⟨b, hb, hveq⟩ := pixT_inv hv
  have hsrc : srcOffset y x = 1078 + 96 * (95 - 3 * y) + 3 * x := by
    rw [srcOffset_eq]
    omega
  rw [hsrc] at hb
  have hIdx : 14 + 40 + 256 * 4 + (32 * y + x) = 1078 + 32 * y + x := by omega
  rw [hIdx] at hvout
  constructor
  · intro hneg hbytes
    have hblt : b < 256 := hbytes b (List.getElem?_mem hb)
    rw [if_neg (by omega)] at hveq
    rw [hvout, hb, hveq, Nat.mod_eq_of_lt hblt]
  · intro ht0 _
    rw [if_pos ht0] at hveq
    rw [hvout, hb]
    refine ⟨by rw [hveq]; rfl, ?_⟩
    rcases binarize_cases t inv (b % 256) with h0 | h255
    · exact Or.inl (by rw [hveq, h0])
    · exact Or.inr (by rw [hveq, h255])

/-- Witness for C7: grayscale passthrough at threshold `-1` on a constant
buffer, checked at destination `(0, 0)`. -/
theorem C7_nearest_threshold_witness :
    ∃ out, resize_96x96_to_32x32_and_threshold (List.replicate 10292 7) (-1) false
        = .ok out ∧
      out[1078 + 32 * 0 + 0]?
        = (List.replicate 10292 7)[1078 + 96 * (95 - 3 * 0) + 3 * 0]? := by
  obtain ⟨out, hout⟩ := thresh_success (List.replicate 10292 7) (-1) false (le_of_eq (List.length_replicate _ _).symm)
  refine ⟨out, hout, ?_⟩
  exact (C7_nearest_threshold _ _ _ _ hout 0 0 (by norm_num) (by norm_num)).1
    (by norm_num)
    (fun b hb => by rw [List.eq_of_mem_replicate hb]; norm_num)

/-! ### Claim C4 -/

/-- Claim C4: `resize_96x96_to_32x32_quantized` maps each nearest-sampled source
pixel `p` to `(p / range_size) * range_size + range_size / 2` with
`range_size = 256 / depth`; a depth below 2 is silently treated as 256, making
the map the identity; with `depth = 2` pixels below 128 map to 64 and pixels
at or above 128 map to 192. -/
theorem C4_quantize_mapping (input : List Nat) (depth : Int) (out : List Nat)
    (h : resize_96x96_to_32x32_quantized input depth = .ok out)
    (x y : Nat) (hx : x < 32) (hy : y < 32) :
    out[1078 + 32 * y + x]?
      = some (quantize_value (((256 : Int) / (if depth < 2 then 256 else depth)).toNat)
          ((input[1078 + 96 * (95 - 3 * y) + 3 * x]?).getD 0 % 256)) ∧
    (depth < 2 →
      out[1078 + 32 * y + x]?
        = some ((input[1078 + 96 * (95 - 3 * y) + 3 * x]?).getD 0 % 256)) ∧
    (depth = 2 →
      ((input[1078 + 96 * (95 - 3 * y) + 3 * x]?).getD 0 % 256 < 128 →
        out[1078 + 32 * y + x]? = some 64) ∧
      (128 ≤ (input[1078 + 96 * (95 - 3 * y) + 3 * x]?).getD 0 % 256 →
        out[1078 + 32 * y + x]? = some 192)) := by
  simp only [resize_96x96_to_32x32_quantized] at h
  obtain ⟨v, hv, hvout⟩ := wp_get coords _ _ _ h (32 * y + x) y x (coords_get hy hx)
  obtain ⟨b, hb, hrs, hveq⟩ := pixQ_inv hv
  have hsrc : srcOffset y x = 1078 + 96 * (95 - 3 * y) + 3 * x := by
    rw [srcOffset_eq]
    omega
  rw [hsrc] at hb
  have hIdx : 14 + 40 + 256 * 4 + (32 * y + x) = 1078 + 32 * y + x := by omega
  rw [hIdx] at hvout
  have hq1 : out[1078 + 32 * y + x]?
      = some (quantize_value (((256 : Int) / (if depth < 2 then 256 else depth)).toNat)
          ((input[1078 + 96 * (95 - 3 * y) + 3 * x]?).getD 0 % 256)) := by
    rw [hvout, hveq, hb]
    rfl
  refine ⟨hq1, ?_, ?_⟩
  · intro hd
    have hrs1 : (((256 : Int)) / (if depth < 2 then 256 else depth)).toNat = 1 := by
      rw [if_pos hd]
      decide
    rw [hq1, hrs1]
    simp [quantize_value]
  · intro hd
    subst hd
    rw [hq1, quant_rs_depth2]
    constructor
    · intro hlo
      have hqv : quantize_value 128 ((input[1078 + 96 * (95 - 3 * y) + 3 * x]?).getD 0 % 256)
          = 64 := by
        unfold quantize_value
        omega
      rw [hqv]
    · intro hhi
      have hmod : (input[1078 + 96 * (95 - 3 * y) + 3 * x]?).getD 0 % 256 < 256 :=
        Nat.mod_lt _ (by norm_num)
      have hqv : quantize_value 128 ((input[1078 + 96 * (95 - 3 * y) + 3 * x]?).getD 0 % 256)
          = 192 := by
        unfold quantize_value
        omega
      rw [hqv]

/-- Witness for C4: quantization with depth 2 of an all-zero source maps the
`(0, 0)` destination pixel to the bucket midpoint 64. -/
theorem C4_quantize_mapping_witness :
    ∃ out, resize_96x96_to_32x32_quantized (List.replicate 10292 0) 2 = .ok out ∧
      out[1078 + 32 * 0 + 0]? = some 64 := by
  obtain ⟨out, hout⟩ := quant_success_depth2 (List.replicate 10292 0) (le_of_eq (List.length_replicate _ _).symm)
  obtain ⟨-, -, hd2⟩ := C4_quantize_mapping _ 2 out hout 0 0 (by norm_num) (by norm_num)
  refine ⟨out, hout, (hd2 rfl).1 ?_⟩
  rw [List.getElem?_replicate, if_pos (by norm_num)]
  decide

/-! ### Claim C3 -/

theorem blockAverage_replicate (c : Nat) {y x : Nat} (hy : y < 32) (hx : x < 32) :
    blockAverage (List.replicate 10294 c) y x = c := by
  unfold blockAverage
  have hmap : ((blockCells ((32 - 1 - y) * (96 / 32)) (x * (96 / 32))).map fun cc =>
      ((List.replicate 10294 c)[14 + 40 + 256 * 4 + cc.1 * (96 + 96 % 4) + cc.2]?).getD 0)
      = List.replicate 9 c := by
    apply List.eq_replicate_iff.mpr
    refine ⟨by rw [List.length_map]; rfl, ?_⟩
    intro b hb
    rw [List.mem_map] at hb
    obtain ⟨cc, hcc, hvb⟩ := hb
    rw [blockCells_eq] at hcc
    simp only [List.mem_cons, List.not_mem_nil, or_false] at hcc
    have hbound : 14 + 40 + 256 * 4 + cc.1 * (96 + 96 % 4) + cc.2 < 10294 := by
      rcases hcc with rfl | rfl | rfl | rfl | rfl | rfl | rfl | rfl | rfl <;>
        dsimp only <;> omega
    rw [← hvb, List.getElem?_replicate, if_pos hbound]
    rfl
  rw [hmap, List.sum_replicate, smul_eq_mul]
  omega

/-- Claim C3: `resize_96x96_to_32x32_averaged_and_threshold` binarizes the floor
of the integer average of the 3x3 source block (row start `(31 - y) * 3`,
column start `3 * x`) against the threshold, with no grayscale passthrough;
with threshold 128 an all-255 source yields all-255 output and an all-0 source
yields all-0 output. -/
theorem C3_average_threshold :
    (∀ (input : List Nat) (t : Int) (inv : Bool) (out : List Nat),
        resize_96x96_to_32x32_averaged_and_threshold input t inv = .ok out →
        ∀ x y : Nat, x < 32 → y < 32 →
          out[1078 + 32 * y + x]? = some (binarize t inv (blockAverage input y x))) ∧
    (∃ out, resize_96x96_to_32x32_averaged_and_threshold
        (List.replicate 10294 255) 128 false = .ok out ∧
      ∀ x y : Nat, x < 32 → y < 32 → out[1078 + 32 * y + x]? = some 255) ∧
    (∃ out, resize_96x96_to_32x32_averaged_and_threshold
        (List.replicate 10294 0) 128 false = .ok out ∧
      ∀ x y : Nat, x < 32 → y < 32 → out[1078 + 32 * y + x]? = some 0) := by
  have hgen : ∀ (input : List Nat) (t : Int) (inv : Bool) (out : List Nat),
      resize_96x96_to_32x32_averaged_and_threshold input t inv = .ok out →
      ∀ x y : Nat, x < 32 → y < 32 →
        out[1078 + 32 * y + x]? = some (binarize t inv (blockAverage input y x)) := by
    intro input t inv out h x y hx hy
    unfold resize_96x96_to_32x32_averaged_and_threshold at h
    obtain ⟨v, hv, hvout⟩ := wp_get coords _ _ _ h (32 * y + x) y x (coords_get hy hx)
    have hIdx : 14 + 40 + 256 * 4 + (32 * y + x) = 1078 + 32 * y + x := by omega
    rw [hIdx] at hvout
    rw [hvout, pixA_inv hv]
  refine ⟨hgen, ?_, ?_⟩
  · obtain ⟨out, hout⟩ := avg_success (List.replicate 10294 255) 128 false
      (le_of_eq (List.length_replicate _ _).symm)
    refine ⟨out, hout, ?_⟩
    intro x y hx hy
    rw [hgen _ _ _ _ hout x y hx hy, blockAverage_replicate 255 hy hx]
    decide
  · obtain ⟨out, hout⟩ := avg_success (List.replicate 10294 0) 128 false
      (le_of_eq (List.length_replicate _ _).symm)
    refine ⟨out, hout, ?_⟩
    intro x y hx hy
    rw [hgen _ _ _ _ hout x y hx hy, blockAverage_replicate 0 hy hx]
    decide

/-- Witness for C3: the all-white instance evaluated at destination `(0, 0)`. -/
theorem C3_average_threshold_witness :
    ∃ out, resize_96x96_to_32x32_averaged_and_threshold
        (List.replicate 10294 255) 128 false = .ok out ∧
      out[1078 + 32 * 0 + 0]? = some 255 := by
  obtain ⟨out, hout, hall⟩ := C3_average_threshold.2.1
  exact ⟨out, hout, hall 0 0 (by norm_num) (by norm_num)⟩

/-! ### Claim C5 -/

/-- Claim C5: `strip_bmp_header` fails with the MalformedInput `ValueError` iff
its input length is at most `54 + 1024 = 1078`; otherwise it fails with the
InvalidDimensions `ValueError` iff the trailing payload is not exactly 1024
bytes; otherwise (length exactly 2102) it returns the trailing 1024 bytes
unchanged. -/
theorem C5_strip_header_behaviour (bmp : List Nat) :
    (strip_bmp_header bmp = .error (.valueError malformedInputMsg) ↔
      bmp.length ≤ 1078) ∧
    (1078 < bmp.length →
      (strip_bmp_header bmp = .error (.valueError invalidDimensionsMsg) ↔
        bmp.length ≠ 2102)) ∧
    (bmp.length = 2102 → strip_bmp_header bmp = .ok (bmp.drop 1078)) := by
  have hmsg : malformedInputMsg ≠ invalidDimensionsMsg := by decide
  unfold strip_bmp_header
  by_cases h1 : bmp.length ≤ 54 + 256 * 4
  · rw [if_pos h1]
    exact ⟨⟨fun _ => by omega, fun _ => rfl⟩,
      fun hgt => absurd hgt (by omega),
      fun he => absurd he (by omega)⟩
  · rw [if_neg h1]
    have hdl : (bmp.drop (54 + 256 * 4)).length = bmp.length - 1078 := by
      rw [List.length_drop]
    by_cases h2 : (bmp.drop (54 + 256 * 4)).length ≠ 32 * 32
    · rw [if_pos h2]
      refine ⟨⟨fun he => ?_, fun hle => absurd hle (by omega)⟩,
        fun _ => ⟨fun _ => by omega, fun _ => rfl⟩,
        fun he => absurd (by omega : (bmp.drop (54 + 256 * 4)).length = 32 * 32) h2⟩
      injection he with h'
      injection h' with h''
      exact (hmsg h''.symm).elim
    · rw [if_neg h2]
      have h2' : (bmp.drop (54 + 256 * 4)).length = 32 * 32 := not_not.mp h2
      refine ⟨⟨fun he => Except.noConfusion he, fun hle => absurd hle (by omega)⟩,
        fun hgt => ⟨fun he => Except.noConfusion he, fun hne => absurd (by omega) hne⟩,
        fun _ => rfl⟩

/-- Witness for C5: a 2102-byte buffer is accepted and sliced; a 1077-byte
buffer is rejected as MalformedInput. -/
theorem C5_strip_header_behaviour_witness :
    strip_bmp_header (List.replicate 2102 5)
        = .ok ((List.replicate 2102 5).drop 1078) ∧
    strip_bmp_header (List.replicate 1077 5)
        = .error (.valueError malformedInputMsg) := by
  constructor
  · exact (C5_strip_header_behaviour (List.replicate 2102 5)).2.2
      (List.length_replicate _ _)
  · exact (C5_strip_header_behaviour (List.replicate 1077 5)).1.mpr
      (by rw [List.length_replicate]; norm_num)

/-! ### Claim C8 -/

theorem pyGet_error {α : Type} {l : List α} {i : Nat} {e : PyErr}
    (h : pyGet l i = .error e) : e = .indexError := by
  unfold pyGet at h
  split at h
  · cases h
  · injection h with h'
    exact h'.symm

theorem wp_head_error {pix : Nat → Nat → Except PyErr Nat} {y x : Nat}
    {rest : List (Nat × Nat)} {off : Nat} {buf : List Nat} {e : PyErr}
    (h : pix y x = .error e) :
    writePixels pix ((y, x) :: rest) off buf = .error e := by
  simp only [writePixels, h]

/-- Counterexample for C8: on a 100-byte buffer (far below the declared minimum)
the threshold transform raises IndexError at its first pixel read — not
MalformedInput, which the claim asserts; no length validation exists. -/
theorem C8_no_validation_counterexample :
    resize_96x96_to_32x32_and_threshold (List.replicate 100 0) 128 false
        = .error .indexError ∧
    resize_96x96_to_32x32_and_threshold (List.replicate 100 0) 128 false
        ≠ .error (.valueError malformedInputMsg) := by
  have h : resize_96x96_to_32x32_and_threshold (List.replicate 100 0) 128 false
      = .error .indexError := by decide
  refine ⟨h, ?_⟩
  rw [h]
  intro hc
  injection hc with h'
  cases h'

/-- Claim C8 (amended): the resize transforms perform no explicit length
validation; any buffer short enough that the first pixel read is out of range
(length ≤ 10198 for the three nearest-sampling transforms, ≤ 10006 for the
averaged one) makes them fail with IndexError, not MalformedInput. -/
theorem C8_short_input_index_error (input : List Nat) (t depth : Int) (inv : Bool) :
    (input.length ≤ 10198 →
      resize_96x96_to_32x32_and_threshold input t inv = .error .indexError ∧
      resize_96x96_to_32x32_quantized input depth = .error .indexError ∧
      resize_96x96_to_32x32 input = .error .indexError) ∧
    (input.length ≤ 10006 →
      resize_96x96_to_32x32_averaged_and_threshold input t inv
        = .error .indexError) := by
  constructor
  · intro hlen
    have hget : pyGet input (srcOffset 0 0) = .error .indexError := by
      apply pyGet_err
      have h00 : srcOffset 0 0 = 10198 := by unfold srcOffset; norm_num
      omega
    refine ⟨?_, ?_, ?_⟩
    · have hpix : pixT input t inv 0 0 = .error .indexError := by
        simp only [pixT, hget]
      unfold resize_96x96_to_32x32_and_threshold
      rw [coords_head]
      exact wp_head_error hpix
    · have hpix : ∀ rs : Nat, pixQ input rs 0 0 = .error .indexError := by
        intro rs
        simp only [pixQ, hget]
      simp only [resize_96x96_to_32x32_quantized]
      rw [coords_head]
      exact wp_head_error (hpix _)
    · have hpix : pixN input 0 0 = .error .indexError := by
        simp only [pixN, hget]
      unfold resize_96x96_to_32x32
      rw [coords_head]
      exact wp_head_error hpix
  · intro hlen
    have hbs : blockSumCount input
        (blockCells ((32 - 1 - 0) * (96 / 32)) (0 * (96 / 32))) (0, 0)
        = .error .indexError := by
      rw [blockCells_eq]
      simp only [blockSumCount]
      split
      · rename_i e heq
        rw [pyGet_error heq]
      · rename_i p heq
        have hlt := pyGet_lt_of_ok heq
        omega
    have hpix : pixA input t inv 0 0 = .error .indexError := by
      unfold pixA
      rw [hbs]
    unfold resize_96x96_to_32x32_averaged_and_threshold
    rw [coords_head]
    exact wp_head_error hpix

/-- Witness for the amended C8 on a concrete 100-byte buffer. -/
theorem C8_short_input_index_error_witness :
    resize_96x96_to_32x32_and_threshold (List.replicate 100 0) 5 true
        = .error .indexError ∧
    resize_96x96_to_32x32_averaged_and_threshold (List.replicate 100 0) 5 true
        = .error .indexError := by
  have h := C8_short_input_index_error (List.replicate 100 0) 5 7 true
  exact ⟨(h.1 (by rw [List.length_replicate]; norm_num)).1,
    h.2 (by rw [List.length_replicate]; norm_num)⟩

/-! ### Claim C9 -/

/-- Counterexample for C9: with depth 3 (`range_size = 256 // 3 = 85`) a source
pixel of 255 quantizes to `3 * 85 + 42 = 297 > 255`, and the store into the
output bytearray raises ValueError — the claimed byte bound fails. -/
theorem C9_quantize_overflow_counterexample :
    quantize_value (256 / 3) 255 = 297 ∧
    ¬ quantize_value (256 / 3) 255 ≤ 255 ∧
    resize_96x96_to_32x32_quantized (List.replicate 10294 255) 3
      = .error (.valueError "byte must be in range(0, 256)") := by
  refine ⟨by decide, by decide, ?_⟩
  have hg : pyGet (List.replicate 10294 (255 : Nat)) (srcOffset 0 0) = .ok 255 := by
    apply pyGet_ok.mpr
    rw [List.getElem?_replicate,
      if_pos (by unfold srcOffset; norm_num : srcOffset 0 0 < 10294)]
  have hpix : pixQ (List.replicate 10294 255) 85 0 0 = .ok 297 := by
    simp only [pixQ, hg]
    rw [if_neg (by norm_num)]
    decide
  have hset : pySet (buildNewBmp (List.replicate 10294 255)) (14 + 40 + 256 * 4) 297
      = .error (.valueError "byte must be in range(0, 256)") := by
    unfold pySet
    rw [if_pos (by
        rw [buildNewBmp_length (by rw [List.length_replicate]; norm_num)]
        norm_num),
      if_neg (by norm_num)]
  simp only [resize_96x96_to_32x32_quantized]
  rw [show (((256 : Int)) / (if (3 : Int) < 2 then 256 else 3)).toNat = 85 from by decide]
  rw [coords_head]
  simp only [writePixels, hpix, hset]

/-- Claim C9 (amended): for every depth `d ≥ 2` that divides 256, the bucket
midpoint `quantize_value (256 / d) p` fits in a byte for every source pixel
`p ≤ 255`, so the bytearray store succeeds for such depths.  (For other depths
it can overflow, as the counterexample shows.) -/
theorem C9_quantize_value_bound (d : Nat) (hd2 : 2 ≤ d) (hdvd : d ∣ 256)
    (p : Nat) (hp : p ≤ 255) : quantize_value (256 / d) p ≤ 255 := by
  unfold quantize_value
  obtain ⟨k, hk⟩ := hdvd
  have hklt : 0 < k := by
    rcases Nat.eq_zero_or_pos k with h0 | h1
    · subst h0
      rw [Nat.mul_zero] at hk
      exact absurd hk (by norm_num)
    · exact h1
  have hrs : 256 / d = k := by
    rw [hk, Nat.mul_div_cancel_left _ (by omega : 0 < d)]
  rw [hrs]
  have hplt : p < d * k := by
    rw [← hk]
    omega
  have hdivlt : p / k < d := (Nat.div_lt_iff_lt_mul hklt).mpr hplt
  have hstep : p / k * k + k ≤ d * k := by
    have h4 : (p / k + 1) * k ≤ d * k := Nat.mul_le_mul_right k hdivlt
    have h5 : p / k * k + k = (p / k + 1) * k := by ring
    rw [h5]
    exact h4
  have hk2 : k / 2 < k := Nat.div_lt_self hklt (by norm_num)
  have hlt : p / k * k + k / 2 < 256 := by
    rw [hk]
    calc p / k * k + k / 2 < p / k * k + k := Nat.add_lt_add_left hk2 _
    _ ≤ d * k := hstep
  exact Nat.lt_succ_iff.mp hlt

/-- Witness for the amended C9 at depth 2 and the extreme pixel 255. -/
theorem C9_quantize_value_bound_witness : quantize_value (256 / 2) 255 ≤ 255 :=
  C9_quantize_value_bound 2 (by norm_num) (by norm_num) 255 (by norm_num)

/-! ### Claim C6: Sobel edge detection -/

theorem kernelCells_eq :
    kernelCells = [(0, 0), (0, 1), (0, 2), (1, 0), (1, 1), (1, 2),
      (2, 0), (2, 1), (2, 2)] := by decide

theorem sobelKernelFold_inv {input : List Int} {offset x y : Nat}
    (cells : List (Nat × Nat)) :
    ∀ (s s' : Int × Int), sobelKernelFold input offset x y cells s = .ok s' →
      s' = (s.1 + (cells.map fun c =>
              (input[offset + (y + c.1 - 1) * 32 + (x + c.2 - 1)]?).getD 0 *
                (Gx.getD (c.1 * 3 + c.2) 0)).sum,
            s.2 + (cells.map fun c =>
              (input[offset + (y + c.1 - 1) * 32 + (x + c.2 - 1)]?).getD 0 *
                (Gy.getD (c.1 * 3 + c.2) 0)).sum) := by
  induction cells with
  | nil =>
    intro s s' h
    injection h with h'
    simp [h'.symm]
  | cons c rest ih =>
    intro s s' h
    simp only [sobelKernelFold] at h
    split at h
    · cases h
    · rename_i p hp
      have hrec := ih _ _ h
      have hpd : (input[offset + (y + c.1 - 1) * 32 + (x + c.2 - 1)]?).getD 0 = p := by
        rw [pyGet_ok.mp hp]
        rfl
      rw [hrec]
      simp only [List.map_cons, List.sum_cons, hpd, Prod.mk.injEq]
      constructor <;> ring

theorem sobelSums_inv {input : List Int} {offset x y : Nat} {s : Int × Int}
    (h : sobelSums input offset x y = .ok s) :
    s = (gxVal input offset x y, gyVal input offset x y) := by
  have hc := sobelKernelFold_inv kernelCells _ _ h
  rw [hc]
  unfold gxVal gyVal
  norm_num

theorem sobelKernelFold_success {input : List Int} {offset x y : Nat}
    (cells : List (Nat × Nat))
    (hb : ∀ c ∈ cells, offset + (y + c.1 - 1) * 32 + (x + c.2 - 1) < input.length) :
    ∀ s, ∃ s', sobelKernelFold input offset x y cells s = .ok s' := by
  induction cells with
  | nil => exact fun s => ⟨s, rfl⟩
  | cons c rest ih =>
    intro s
    have hlt := hb c (List.mem_cons_self _ _)
    have hget : pyGet input (offset + (y + c.1 - 1) * 32 + (x + c.2 - 1))
        = .ok (input.get ⟨offset + (y + c.1 - 1) * 32 + (x + c.2 - 1), hlt⟩) :=
      pyGet_ok.mpr (List.getElem?_eq_getElem hlt)
    obtain ⟨s', hs'⟩ := ih (fun d hd => hb d (List.mem_cons_of_mem _ hd)) _
    refine ⟨s', ?_⟩
    simp only [sobelKernelFold, hget]
    exact hs'

theorem sobelSums_success {input : List Int} {offset x y : Nat}
    (hin : offset + 1024 ≤ input.length) (hx : x ≤ 30) (hy : y ≤ 30) :
    ∃ s, sobelSums input offset x y = .ok s := by
  unfold sobelSums
  apply sobelKernelFold_success
  intro c hc
  rw [kernelCells_eq] at hc
  simp only [List.mem_cons, List.not_mem_nil, or_false] at hc
  rcases hc with rfl | rfl | rfl | rfl | rfl | rfl | rfl | rfl | rfl <;>
    dsimp only <;> omega

theorem interiorCoords_eq_map :
    interiorCoords = (List.range 900).map fun i => (1 + i / 30, 1 + i % 30) := by
  decide

theorem coords_pairwise :
    List.Pairwise (fun a b : Nat × Nat => a.1 * 32 + a.2 < b.1 * 32 + b.2) coords := by
  rw [coords_eq_map, List.pairwise_map]
  apply List.Pairwise.imp ?_ (List.pairwise_lt_range 1024)
  intro i j hij
  dsimp only
  omega

theorem interiorCoords_pairwise :
    List.Pairwise (fun a b : Nat × Nat => a.1 * 32 + a.2 < b.1 * 32 + b.2)
      interiorCoords := by
  rw [interiorCoords_eq_map, List.pairwise_map]
  apply List.Pairwise.imp ?_ (List.pairwise_lt_range 900)
  intro i j hij
  dsimp only
  omega

theorem mem_interiorCoords {p : Nat × Nat} :
    p ∈ interiorCoords ↔ (1 ≤ p.1 ∧ p.1 ≤ 30) ∧ (1 ≤ p.2 ∧ p.2 ≤ 30) := by
  obtain ⟨y, x⟩ := p
  simp [interiorCoords, List.mem_flatMap, List.mem_map, List.mem_range'_1]
  omega

theorem si_length {input : List Int} {offset : Nat} (cs : List (Nat × Nat)) :
    ∀ (out res : List Int),
      sobelInterior input offset cs out = .ok res → res.length = out.length := by
  induction cs with
  | nil =>
    intro out res h
    injection h with h'
    rw [h']
  | cons c rest ih =>
    obtain ⟨y0, x0⟩ := c
    intro out res h
    simp only [sobelInterior] at h
    split at h
    · cases h
    · rename_i s hs
      split at h
      · cases h
      · rename_i out' hset
        obtain ⟨-, hset'⟩ := pySetArr_inv hset
        rw [ih out' res h, hset', List.length_set]

theorem si_frame {input : List Int} {offset : Nat} (cs : List (Nat × Nat)) :
    ∀ (out res : List Int) (q : Nat),
      sobelInterior input offset cs out = .ok res →
      (∀ p ∈ cs, p.1 * 32 + p.2 ≠ q) → res[q]? = out[q]? := by
  induction cs with
  | nil =>
    intro out res q h hne
    injection h with h'
    rw [h']
  | cons c rest ih =>
    obtain ⟨y0, x0⟩ := c
    intro out res q h hne
    simp only [sobelInterior] at h
    split at h
    · cases h
    · rename_i s hs
      split at h
      · cases h
      · rename_i out' hset
        obtain ⟨-, hset'⟩ := pySetArr_inv hset
        have hq0 : y0 * 32 + x0 ≠ q := hne (y0, x0) (List.mem_cons_self _ _)
        rw [ih out' res q h (fun p hp => hne p (List.mem_cons_of_mem _ hp)), hset',
          List.getElem?_set_ne hq0]

theorem si_value {input : List Int} {offset : Nat} (cs : List (Nat × Nat)) :
    ∀ (out res : List Int),
      sobelInterior input offset cs out = .ok res →
      List.Pairwise (fun a b : Nat × Nat => a.1 * 32 + a.2 < b.1 * 32 + b.2) cs →
      ∀ y x : Nat, (y, x) ∈ cs →
        ∃ s, sobelSums input offset x y = .ok s ∧
          res[y * 32 + x]?
            = some (if s.1 ^ 2 + s.2 ^ 2 < 65025 then (0 : Int) else 255) := by
  induction cs with
  | nil =>
    intro out res h hpw y x hm
    cases hm
  | cons c rest ih =>
    obtain ⟨y0, x0⟩ := c
    intro out res h hpw y x hm
    simp only [sobelInterior] at h
    split at h
    · cases h
    · rename_i s hs
      split at h
      · cases h
      · rename_i out' hset
        obtain ⟨hlt, hset'⟩ := pySetArr_inv hset
        obtain ⟨hrel, hpw'⟩ := List.pairwise_cons.mp hpw
        rcases List.mem_cons.mp hm with heq | hmem
        · obtain ⟨rfl, rfl⟩ : y = y0 ∧ x = x0 := Prod.mk.inj heq
          have hcl : ∀ p ∈ rest, y * 32 + x < p.1 * 32 + p.2 := hrel
          refine ⟨s, hs, ?_⟩
          rw [si_frame rest out' res (y * 32 + x) h
              (fun p hp => by have := hcl p hp; omega),
            hset', List.getElem?_set_self hlt]
        · exact ih out' res h hpw' y x hmem

theorem si_success {input : List Int} {offset : Nat} (cs : List (Nat × Nat)) :
    ∀ out : List Int,
      (∀ p ∈ cs, (∃ s, sobelSums input offset p.2 p.1 = .ok s) ∧
        p.1 * 32 + p.2 < out.length) →
      ∃ res, sobelInterior input offset cs out = .ok res := by
  induction cs with
  | nil => exact fun out _ => ⟨out, rfl⟩
  | cons c rest ih =>
    obtain ⟨y0, x0⟩ := c
    intro out hb
    obtain ⟨⟨s, hs⟩, hlt⟩ := hb (y0, x0) (List.mem_cons_self _ _)
    have hset : pySetArr out (y0 * 32 + x0)
        (if s.1 ^ 2 + s.2 ^ 2 < 65025 then (0 : Int) else 255)
        = .ok (out.set (y0 * 32 + x0)
            (if s.1 ^ 2 + s.2 ^ 2 < 65025 then (0 : Int) else 255)) :=
      pySetArr_ok hlt
    obtain ⟨res, hres⟩ := ih
      (out.set (y0 * 32 + x0) (if s.1 ^ 2 + s.2 ^ 2 < 65025 then (0 : Int) else 255))
      (fun p hp => by
        obtain ⟨h1, h2⟩ := hb p (List.mem_cons_of_mem _ hp)
        exact ⟨h1, by rw [List.length_set]; exact h2⟩)
    refine ⟨res, ?_⟩
    simp only [sobelInterior, hs, hset]
    exact hres

theorem sb_length (cs : List (Nat × Nat)) :
    ∀ (out res : List Int), sobelBorder cs out = .ok res → res.length = out.length := by
  induction cs with
  | nil =>
    intro out res h
    injection h with h'
    rw [h']
  | cons c rest ih =>
    obtain ⟨y0, x0⟩ := c
    intro out res h
    simp only [sobelBorder] at h
    split at h
    · split at h
      · cases h
      · rename_i out' hset
        obtain ⟨-, hset'⟩ := pySetArr_inv hset
        rw [ih out' res h, hset', List.length_set]
    · exact ih out res h

theorem sb_frame (cs : List (Nat × Nat)) :
    ∀ (out res : List Int) (q : Nat),
      sobelBorder cs out = .ok res →
      (∀ p ∈ cs, (p.2 = 0 ∨ p.1 = 0 ∨ p.2 = 32 - 1 ∨ p.1 = 32 - 1) →
        p.1 * 32 + p.2 ≠ q) →
      res[q]? = out[q]? := by
  induction cs with
  | nil =>
    intro out res q h hne
    injection h with h'
    rw [h']
  | cons c rest ih =>
    obtain ⟨y0, x0⟩ := c
    intro out res q h hne
    simp only [sobelBorder] at h
    split at h
    · rename_i hbord
      split at h
      · cases h
      · rename_i out' hset
        obtain ⟨-, hset'⟩ := pySetArr_inv hset
        have hq0 : y0 * 32 + x0 ≠ q := hne (y0, x0) (List.mem_cons_self _ _) hbord
        rw [ih out' res q h (fun p hp hbp => hne p (List.mem_cons_of_mem _ hp) hbp),
          hset', List.getElem?_set_ne hq0]
    · exact ih out res q h (fun p hp hbp => hne p (List.mem_cons_of_mem _ hp) hbp)

theorem sb_value (cs : List (Nat × Nat)) :
    ∀ (out res : List Int),
      sobelBorder cs out = .ok res →
      List.Pairwise (fun a b : Nat × Nat => a.1 * 32 + a.2 < b.1 * 32 + b.2) cs →
      ∀ y x : Nat, (y, x) ∈ cs →
        (x = 0 ∨ y = 0 ∨ x = 32 - 1 ∨ y = 32 - 1) →
        res[y * 32 + x]? = some 0 := by
  induction cs with
  | nil =>
    intro out res h hpw y x hm hbord
    cases hm
  | cons c rest ih =>
    obtain ⟨y0, x0⟩ := c
    intro out res h hpw y x hm hbord
    obtain ⟨hrel, hpw'⟩ := List.pairwise_cons.mp hpw
    simp only [sobelBorder] at h
    rcases List.mem_cons.mp hm with heq | hmem
    · obtain ⟨rfl, rfl⟩ : y = y0 ∧ x = x0 := Prod.mk.inj heq
      rw [if_pos hbord] at h
      split at h
      · cases h
      · rename_i out' hset
        obtain ⟨hlt, hset'⟩ := pySetArr_inv hset
        have hcl : ∀ p ∈ rest, y * 32 + x < p.1 * 32 + p.2 := hrel
        rw [sb_frame rest out' res (y * 32 + x) h
            (fun p hp _ => by have := hcl p hp; omega),
          hset', List.getElem?_set_self hlt]
    · split at h
      · split at h
        · cases h
        · rename_i out' hset
          exact ih out' res h hpw' y x hmem hbord
      · exact ih out res h hpw' y x hmem hbord

theorem sb_success (cs : List (Nat × Nat)) :
    ∀ out : List Int, (∀ p ∈ cs, p.1 * 32 + p.2 < out.length) →
      ∃ res, sobelBorder cs out = .ok res := by
  induction cs with
  | nil => exact fun out _ => ⟨out, rfl⟩
  | cons c rest ih =>
    obtain ⟨y0, x0⟩ := c
    intro out hb
    by_cases hbord : x0 = 0 ∨ y0 = 0 ∨ x0 = 32 - 1 ∨ y0 = 32 - 1
    · have hlt : y0 * 32 + x0 < out.length := hb (y0, x0) (List.mem_cons_self _ _)
      have hset : pySetArr out (y0 * 32 + x0) (0 : Int)
          = .ok (out.set (y0 * 32 + x0) (0 : Int)) := pySetArr_ok hlt
      obtain ⟨res, hres⟩ := ih (out.set (y0 * 32 + x0) 0)
        (fun p hp => by
          rw [List.length_set]
          exact hb p (List.mem_cons_of_mem _ hp))
      refine ⟨res, ?_⟩
      simp only [sobelBorder, if_pos hbord, hset]
      exact hres
    · obtain ⟨res, hres⟩ := ih out (fun p hp => hb p (List.mem_cons_of_mem _ hp))
      refine ⟨res, ?_⟩
      simp only [sobelBorder, if_neg hbord]
      exact hres

theorem gxVal_uniform {input : List Int} {offset : Nat} {c : Int}
    (hc : ∀ i, offset ≤ i → i < offset + 1024 → input[i]? = some c)
    {x y : Nat} (hx : x ≤ 30) (hy : y ≤ 30) :
    gxVal input offset x y = 0 := by
  have hval : ∀ dy dx : Nat, dy ≤ 2 → dx ≤ 2 →
      (input[offset + (y + dy - 1) * 32 + (x + dx - 1)]?).getD 0 = c := by
    intro dy dx hdy hdx
    rw [hc _ (by omega) (by omega)]
    rfl
  unfold gxVal
  rw [kernelCells_eq]
  simp only [List.map_cons, List.map_nil, List.sum_cons, List.sum_nil]
  rw [hval 0 0 (by norm_num) (by norm_num), hval 0 1 (by norm_num) (by norm_num),
    hval 0 2 (by norm_num) (by norm_num), hval 1 0 (by norm_num) (by norm_num),
    hval 1 1 (by norm_num) (by norm_num), hval 1 2 (by norm_num) (by norm_num),
    hval 2 0 (by norm_num) (by norm_num), hval 2 1 (by norm_num) (by norm_num),
    hval 2 2 (by norm_num) (by norm_num)]
  have g0 : Gx.getD (0 * 3 + 0) 0 = -1 := rfl
  have g1 : Gx.getD (0 * 3 + 1) 0 = 0 := rfl
  have g2 : Gx.getD (0 * 3 + 2) 0 = 1 := rfl
  have g3 : Gx.getD (1 * 3 + 0) 0 = -2 := rfl
  have g4 : Gx.getD (1 * 3 + 1) 0 = 0 := rfl
  have g5 : Gx.getD (1 * 3 + 2) 0 = 2 := rfl
  have g6 : Gx.getD (2 * 3 + 0) 0 = -1 := rfl
  have g7 : Gx.getD (2 * 3 + 1) 0 = 0 := rfl
  have g8 : Gx.getD (2 * 3 + 2) 0 = 1 := rfl
  rw [g0, g1, g2, g3, g4, g5, g6, g7, g8]
  ring

theorem gyVal_uniform {input : List Int} {offset : Nat} {c : Int}
    (hc : ∀ i, offset ≤ i → i < offset + 1024 → input[i]? = some c)
    {x y : Nat} (hx : x ≤ 30) (hy : y ≤ 30) :
    gyVal input offset x y = 0 := by
  have hval : ∀ dy dx : Nat, dy ≤ 2 → dx ≤ 2 →
      (input[offset + (y + dy - 1) * 32 + (x + dx - 1)]?).getD 0 = c := by
    intro dy dx hdy hdx
    rw [hc _ (by omega) (by omega)]
    rfl
  unfold gyVal
  rw [kernelCells_eq]
  simp only [List.map_cons, List.map_nil, List.sum_cons, List.sum_nil]
  rw [hval 0 0 (by norm_num) (by norm_num), hval 0 1 (by norm_num) (by norm_num),
    hval 0 2 (by norm_num) (by norm_num), hval 1 0 (by norm_num) (by norm_num),
    hval 1 1 (by norm_num) (by norm_num), hval 1 2 (by norm_num) (by norm_num),
    hval 2 0 (by norm_num) (by norm_num), hval 2 1 (by norm_num) (by norm_num),
    hval 2 2 (by norm_num) (by norm_num)]
  have g0 : Gy.getD (0 * 3 + 0) 0 = -1 := rfl
  have g1 : Gy.getD (0 * 3 + 1) 0 = -2 := rfl
  have g2 : Gy.getD (0 * 3 + 2) 0 = -1 := rfl
  have g3 : Gy.getD (1 * 3 + 0) 0 = 0 := rfl
  have g4 : Gy.getD (1 * 3 + 1) 0 = 0 := rfl
  have g5 : Gy.getD (1 * 3 + 2) 0 = 0 := rfl
  have g6 : Gy.getD (2 * 3 + 0) 0 = 1 := rfl
  have g7 : Gy.getD (2 * 3 + 1) 0 = 2 := rfl
  have g8 : Gy.getD (2 * 3 + 2) 0 = 1 := rfl
  rw [g0, g1, g2, g3, g4, g5, g6, g7, g8]
  ring

/-- Claim C6: `sobel_edge_detection` writes, at each interior position, 255 iff
the squared Sobel gradient `gx^2 + gy^2` reaches `255^2 = 65025` (the exact
integer form of `sqrt(gx^2 + gy^2) ≥ 255`) and 0 otherwise; it unconditionally
zeroes every border position; every output entry is 0 or 255; and a uniform
input yields an all-zero output. -/
theorem C6_sobel_edge_detection (input output res : List Int) (offset : Nat)
    (h : sobel_edge_detection input output offset = .ok res) :
    (∀ x y : Nat, 1 ≤ x → x ≤ 30 → 1 ≤ y → y ≤ 30 →
      res[y * 32 + x]?
        = some (if 65025 ≤ gxVal input offset x y ^ 2 + gyVal input offset x y ^ 2
            then (255 : Int) else 0)) ∧
    (∀ x y : Nat, x < 32 → y < 32 → (x = 0 ∨ y = 0 ∨ x = 31 ∨ y = 31) →
      res[y * 32 + x]? = some 0) ∧
    (∀ x y : Nat, x < 32 → y < 32 →
      (res[y * 32 + x]? = some 0 ∨ res[y * 32 + x]? = some 255)) ∧
    (∀ c : Int, (∀ i, offset ≤ i → i < offset + 1024 → input[i]? = some c) →
      ∀ x y : Nat, x < 32 → y < 32 → res[y * 32 + x]? = some 0) := by
  unfold sobel_edge_detection at h
  split at h
  · cases h
  · rename_i o1 ho1
    have hinterior : ∀ x y : Nat, 1 ≤ x → x ≤ 30 → 1 ≤ y → y ≤ 30 →
        res[y * 32 + x]?
          = some (if 65025 ≤ gxVal input offset x y ^ 2 + gyVal input offset x y ^ 2
              then (255 : Int) else 0) := by
      intro x y hx1 hx30 hy1 hy30
      have hframe : res[y * 32 + x]? = o1[y * 32 + x]? := by
        apply sb_frame coords o1 res _ h
        intro p hp hbp
        obtain ⟨hp1, hp2⟩ := mem_coords.mp hp
        omega
      obtain ⟨s, hs, hval⟩ := si_value interiorCoords output o1 ho1
        interiorCoords_pairwise y x
        (mem_interiorCoords.mpr ⟨⟨hy1, hy30⟩, ⟨hx1, hx30⟩⟩)
      rw [hframe, hval, sobelSums_inv hs]
      have hflip : (if (gxVal input offset x y, gyVal input offset x y).1 ^ 2 +
            (gxVal input offset x y, gyVal input offset x y).2 ^ 2 < 65025
          then (0 : Int) else 255)
          = if 65025 ≤ gxVal input offset x y ^ 2 + gyVal input offset x y ^ 2
            then (255 : Int) else 0 := by
        dsimp only
        split_ifs <;> omega
      rw [hflip]
    have hborder : ∀ x y : Nat, x < 32 → y < 32 →
        (x = 0 ∨ y = 0 ∨ x = 31 ∨ y = 31) → res[y * 32 + x]? = some 0 := by
      intro x y hx hy hbord
      exact sb_value coords o1 res h coords_pairwise y x
        (mem_coords.mpr ⟨hy, hx⟩) (by omega)
    refine ⟨hinterior, hborder, ?_, ?_⟩
    · intro x y hx hy
      by_cases hbord : x = 0 ∨ y = 0 ∨ x = 31 ∨ y = 31
      · exact Or.inl (hborder x y hx hy hbord)
      · have hx1 : 1 ≤ x ∧ x ≤ 30 := by omega
        have hy1 : 1 ≤ y ∧ y ≤ 30 := by omega
        rw [hinterior x y hx1.1 hx1.2 hy1.1 hy1.2]
        split
        · exact Or.inr rfl
        · exact Or.inl rfl
    · intro c hc x y hx hy
      by_cases hbord : x = 0 ∨ y = 0 ∨ x = 31 ∨ y = 31
      · exact hborder x y hx hy hbord
      · have hx1 : 1 ≤ x ∧ x ≤ 30 := by omega
        have hy1 : 1 ≤ y ∧ y ≤ 30 := by omega
        rw [hinterior x y hx1.1 hx1.2 hy1.1 hy1.2,
          gxVal_uniform hc hx1.2 hy1.2, gyVal_uniform hc hx1.2 hy1.2]
        norm_num

theorem sobel_success (input output : List Int) (offset : Nat)
    (hin : offset + 1024 ≤ input.length) (hout : 1024 ≤ output.length) :
    ∃ res, sobel_edge_detection input output offset = .ok res := by
  obtain ⟨o1, ho1⟩ := si_success interiorCoords output (fun p hp => by
    obtain ⟨⟨hp1, hp2⟩, hp3, hp4⟩ := mem_interiorCoords.mp hp
    exact ⟨sobelSums_success hin hp4 hp2, by omega⟩)
  have holen : o1.length = output.length := si_length interiorCoords output o1 ho1
  obtain ⟨res, hres⟩ := sb_success coords o1 (fun p hp => by
    obtain ⟨hp1, hp2⟩ := mem_coords.mp hp
    rw [holen]
    omega)
  refine ⟨res, ?_⟩
  unfold sobel_edge_detection
  rw [ho1]
  exact hres

/-- Witness for C6: a zero input with offset 0 yields a fully zero output. -/
theorem C6_sobel_edge_detection_witness :
    ∃ res, sobel_edge_detection (List.replicate 1024 (0 : Int))
        (List.replicate 1024 (0 : Int)) 0 = .ok res ∧
      res[5 * 32 + 7]? = some 0 ∧ res[0 * 32 + 0]? = some 0 := by
  obtain ⟨res, hres⟩ := sobel_success (List.replicate 1024 (0 : Int))
    (List.replicate 1024 (0 : Int)) 0
    (by rw [List.length_replicate])
    (le_of_eq (List.length_replicate _ _).symm)
  have huni := (C6_sobel_edge_detection _ _ _ _ hres).2.2.2 0
    (fun i h1 h2 => by rw [List.getElem?_replicate, if_pos (by omega)])
  exact ⟨res, hres, huni 7 5 (by norm_num) (by norm_num),
    huni 0 0 (by norm_num) (by norm_num)⟩

end ImageProcessing
